import Mathlib

/-!
# Basic-Delta-Analyzer: the `DataPostProcessor` class

A shallow embedding of `src/datapostprocessor.cpp` and the properties of its
CSV ingestion (`readCSV`), parameter listing (`getParameterNames`), delta
comparison (`compareParameterDeltas`) and batched plotting (`generateGraphs`).

Conventions of the embedding:

* `double` is modelled by `ℚ` (exact arithmetic); `std::stod` is a parameter
  `stod : String → Option ℚ`, `none` standing for the exception it throws when
  no conversion can be performed or the value is out of range.
* `std::string` is modelled by `String`; the order of `std::string`, which
  compares bytes, is the order of `String` on UTF-8 text.
* `std::map<std::string, double>` is an association list kept in ascending key
  order, which is the order in which a range-for visits a `std::map`.
* Indexing a `std::vector` out of range is undefined behaviour; every index
  expression is modelled by an `Option` and surfaces as `Outcome.undefined`.
* An input stream is the text it holds; a file that cannot be opened is `none`.
-/

namespace DataPostProcessor

/-! ## Data model (`datapostprocessor.h`) -/

/-- The `std::map<std::string, double>` of a data point: key/value entries in
ascending key order. -/
abbrev ValueMap := List (String × ℚ)

/-- The struct `DataPoint`: the X value and the sparse parameter values. -/
structure DataPoint where
  x : ℚ
  values : ValueMap
deriving DecidableEq

/-- The exceptions the class throws. `missingParameter` is the
`std::out_of_range` of `std::map::at`; the others are the `std::runtime_error`s
"Failed to open file", "No data read from file" / "No data available" and
"X point beyond data range". -/
inductive Error where
  | openFailed
  | noData
  | missingParameter
  | beyondRange
deriving DecidableEq

/-- How a call that may change `m_data` ends: it returns, it throws (in both
cases leaving a value of `m_data` behind), or it runs into undefined
behaviour. -/
inductive Outcome where
  | returned (m_data : List DataPoint)
  | threw (e : Error) (m_data : List DataPoint)
  | undefined
deriving DecidableEq

/-! ## Library primitives -/

/-- The strings that successive calls `std::getline(stream, s, delim)` extract
from a stream holding `cs`, until the call that fails. A call fails when the
stream is already at its end, so a text that ends in the delimiter has no empty
last piece, while an empty piece between two delimiters is extracted. -/
def getlineChars (delim : Char) : List Char → List (List Char)
  | [] => []
  | c :: rest =>
    if c = delim then [] :: getlineChars delim rest
    else
      match getlineChars delim rest with
      | [] => [[c]]
      | piece :: pieces => (c :: piece) :: pieces

/-- The loop `while (std::getline(stream, s, delim))` over a stream holding
`text`: the extracted strings in order. -/
def getlineAll (delim : Char) (text : String) : List String :=
  (getlineChars delim text.data).map String.mk

/-- The assignment `m[key] = value` on a `std::map`: the entry is inserted at its
place in key order, or overwritten when the key is present. -/
def ValueMap.assign : ValueMap → String → ℚ → ValueMap
  | [], key, value => [(key, value)]
  | (k, v) :: rest, key, value =>
    if key < k then (key, value) :: (k, v) :: rest
    else if key = k then (key, value) :: rest
    else (k, v) :: ValueMap.assign rest key value

/-- The call `m.at(key)`: the mapped value, `none` for the `std::out_of_range`
it throws when the key is absent. -/
def ValueMap.at : ValueMap → String → Option ℚ
  | [], _ => none
  | (k, v) :: rest, key => if key = k then some v else ValueMap.at rest key

/-- The keys of a `std::map` in iteration order. -/
def ValueMap.keys (m : ValueMap) : List String := m.map Prod.fst

/-- The statement `columnData[colIndex].push_back(value)`. -/
def pushBackAt (columnData : List (List ℚ)) (colIndex : Nat) (value : ℚ) :
    Option (List (List ℚ)) :=
  if colIndex < columnData.length then
    some (columnData.modify (fun column => column ++ [value]) colIndex)
  else none

/-! ## `readCSV` -/

/-- The body of the `try` block of `readCSV` (lines 36-42) as a value: the
number to push, if any. An empty cell is not converted; a cell on which
`std::stod` throws is skipped by the `catch`. -/
def parseCell (stod : String → Option ℚ) (cell : String) : Option ℚ :=
  if cell = "" then none else stod cell

/-- The inner loop of `readCSV` (lines 35-44) over the cells still to be
extracted from the line, from column `colIndex` on. The loop stops at the
first cell extracted when `colIndex` has reached `parameters.size()`. -/
def readCells (stod : String → Option ℚ) (nParameters : Nat) :
    List String → Nat → List (List ℚ) → Option (List (List ℚ))
  | [], _, columnData => some columnData
  | cell :: rest, colIndex, columnData =>
    if colIndex < nParameters then
      match parseCell stod cell with
      | some value =>
        match pushBackAt columnData colIndex value with
        | some columnData' => readCells stod nParameters rest (colIndex + 1) columnData'
        | none => none
      | none => readCells stod nParameters rest (colIndex + 1) columnData
    else some columnData

/-- The loop of `readCSV` over the data lines (lines 30-46), threading
`columnData` and `dataRowCount`. -/
def readLines (stod : String → Option ℚ) (nParameters : Nat) :
    List String → List (List ℚ) → Nat → Option (List (List ℚ) × Nat)
  | [], columnData, dataRowCount => some (columnData, dataRowCount)
  | line :: rest, columnData, dataRowCount =>
    match readCells stod nParameters (getlineAll ',' line) 0 columnData with
    | none => none
    | some columnData' =>
      match columnData'[0]? with
      | none => none
      | some column0 =>
        readLines stod nParameters rest columnData' (max dataRowCount column0.length)

/-- The loop `for (col = 1; col < parameters.size(); col++)` of `readCSV`
(lines 54-58) over the column indices still to visit, filling
`point.values`. -/
def rowValues (parameters : List String) (columnData : List (List ℚ)) (row : Nat) :
    List Nat → ValueMap → Option ValueMap
  | [], values => some values
  | col :: cols, values =>
    match columnData[col]? with
    | none => none
    | some column =>
      if row < column.length then
        match parameters[col]?, column[row]? with
        | some name, some value =>
          rowValues parameters columnData row cols (values.assign name value)
        | _, _ => none
      else rowValues parameters columnData row cols values

/-- The loop `for (row = 0; row < dataRowCount; row++)` of `readCSV`
(lines 50-60) over the row indices still to visit: the points pushed on
`m_data`. -/
def buildRows (parameters : List String) (columnData : List (List ℚ)) :
    List Nat → Option (List DataPoint)
  | [] => some []
  | row :: rows =>
    match columnData[0]? with
    | none => none
    | some column0 =>
      match column0[row]? with
      | none => none
      | some x =>
        match rowValues parameters columnData row
            (List.range' 1 (parameters.length - 1)) [] with
        | none => none
        | some values =>
          match buildRows parameters columnData rows with
          | none => none
          | some points => some (⟨x, values⟩ :: points)

/-- The method `readCSV`, on the content of the file (`none`: it cannot be
opened) and the previous value of `m_data`. -/
def readCSV (stod : String → Option ℚ) (file : Option String) (m_data : List DataPoint) :
    Outcome :=
  match file with
  | none => .threw .openFailed m_data
  | some text =>
    match getlineAll '\n' text with
    | [] => .threw .noData []
    | header :: dataLines =>
      let parameters := getlineAll ',' header
      let columnData : List (List ℚ) := parameters.map (fun _ => [])
      match readLines stod parameters.length dataLines columnData 0 with
      | none => .undefined
      | some (columnData', dataRowCount) =>
        match buildRows parameters columnData' (List.range dataRowCount) with
        | none => .undefined
        | some points =>
          if points = [] then .threw .noData points else .returned points

/-- The method `getDataSize`. -/
def getDataSize (m_data : List DataPoint) : Nat := m_data.length

/-- The method `getParameterNames`: the keys of the first point's map, in the
map's iteration order; empty when there is no data. -/
def getParameterNames (m_data : List DataPoint) : List String :=
  match m_data with
  | [] => []
  | point :: _ => point.values.keys

/-! ## `compareParameterDeltas` -/

/-- How a call that leaves `m_data` alone ends: with a value (what it wrote
and printed), with an exception, or in undefined behaviour. What was written
before an exception is not recorded. -/
inductive Result (α : Type) where
  | returned (a : α)
  | threw (e : Error)
  | undefined
deriving DecidableEq

/-- One line of `delta_temp.txt`. -/
structure DeltaLine where
  x : ℚ
  value1 : ℚ
  value2 : ℚ
  delta : ℚ
deriving DecidableEq

/-- The loop over `m_data` of `compareParameterDeltas` (lines 76-83): the lines
written to the data file; `deltas` holds their `delta` fields. A point without
`param1` or `param2` makes `std::map::at` throw. -/
def deltaLoop (param1 param2 : String) : List DataPoint → Result (List DeltaLine)
  | [] => .returned []
  | point :: rest =>
    match point.values.at param1 with
    | none => .threw .missingParameter
    | some value1 =>
      match point.values.at param2 with
      | none => .threw .missingParameter
      | some value2 =>
        match deltaLoop param1 param2 rest with
        | .returned lines => .returned (⟨point.x, value1, value2, value2 - value1⟩ :: lines)
        | other => other

/-- The algorithm `std::lower_bound` with the comparison
`point.x < value` of line 88, on the range of `count` points of `m_data` that
starts at index `first`: the index the returned iterator points to. -/
def lowerBound (m_data : List DataPoint) (value : ℚ) (first count : Nat) : Option Nat :=
  if count = 0 then some first
  else
    let step := count / 2
    match m_data[first + step]? with
    | none => none
    | some point =>
      if point.x < value then lowerBound m_data value (first + step + 1) (count - (step + 1))
      else lowerBound m_data value first step
termination_by count
decreasing_by
  all_goals simp_wf
  · omega
  · omega

/-- Lines 86-92 of `compareParameterDeltas`: the index of `closestPoint`, or the
exception of line 91 when it is `m_data.end()`. -/
def closestPoint (m_data : List DataPoint) (xPoint : ℚ) : Result Nat :=
  match lowerBound m_data xPoint 0 m_data.length with
  | none => .undefined
  | some index => if index = m_data.length then .threw .beyondRange else .returned index

/-- The algorithm `std::minmax_element` followed by the dereference of both
iterators: the smallest and the largest element; `none` on an empty range,
where the iterators may not be dereferenced. -/
def minmaxElement : List ℚ → Option (ℚ × ℚ)
  | [] => none
  | d :: ds =>
    some (ds.foldl (fun (acc : ℚ × ℚ) e =>
      (if e < acc.1 then e else acc.1, if e < acc.2 then acc.2 else e)) (d, d))

/-- Lines 105-109 of `compareParameterDeltas`: the pair `(ymin, ymax)` of the
`set yrange` command. -/
def deltaYRange (deltas : List ℚ) : Option (ℚ × ℚ) :=
  match minmaxElement deltas with
  | none => none
  | some (minDelta, maxDelta) =>
    let deltaRange := maxDelta - minDelta
    some (minDelta - deltaRange * (1 / 10), maxDelta + deltaRange * (1 / 10))

/-- What `compareParameterDeltas` produces: the data file, the index of the
selected point, the three numbers printed for it, and the y range of the delta
panel. -/
structure DeltaComparison where
  dataFile : List DeltaLine
  deltas : List ℚ
  closest : Nat
  value1 : ℚ
  value2 : ℚ
  delta : ℚ
  ymin : ℚ
  ymax : ℚ
deriving DecidableEq

/-- The method `compareParameterDeltas`. -/
def compareParameterDeltas (m_data : List DataPoint) (xPoint : ℚ) (param1 param2 : String) :
    Result DeltaComparison :=
  if m_data = [] then .threw .noData
  else
    match deltaLoop param1 param2 m_data with
    | .threw e => .threw e
    | .undefined => .undefined
    | .returned dataFile =>
      let deltas := dataFile.map DeltaLine.delta
      match closestPoint m_data xPoint with
      | .threw e => .threw e
      | .undefined => .undefined
      | .returned index =>
        match m_data[index]? with
        | none => .undefined
        | some point =>
          match point.values.at param1, point.values.at param2 with
          | some value1, some value2 =>
            match deltaYRange deltas with
            | none => .undefined
            | some (ymin, ymax) =>
              .returned ⟨dataFile, deltas, index, value1, value2, value2 - value1, ymin, ymax⟩
          | _, _ => .threw .missingParameter

/-! ## `generateGraphs` -/

/-- The constant `BATCH_SIZE`. -/
def BATCH_SIZE : Nat := 40

/-- One pass of the batch loop of `generateGraphs`: the batch number, the
bounds of its slice of `validParams`, the lines of its data file (the X value
and one value per parameter of the slice) and the parameter names its plot
command lists. -/
structure Batch where
  batch : Nat
  batchStart : Nat
  batchEnd : Nat
  dataFile : List (ℚ × List ℚ)
  names : List String
deriving DecidableEq

/-- The loop `for (i = batchStart; i < batchEnd; ++i)` of lines 169-171 over
the indices still to visit: the values written after `point.x`. -/
def dataLineValues (validParams : List String) (point : DataPoint) :
    List Nat → Result (List ℚ)
  | [] => .returned []
  | i :: rest =>
    match validParams[i]? with
    | none => .undefined
    | some name =>
      match point.values.at name with
      | none => .threw .missingParameter
      | some value =>
        match dataLineValues validParams point rest with
        | .returned values => .returned (value :: values)
        | other => other

/-- The loop over `m_data` of lines 167-173: the lines of the data file. -/
def dataFileLines (validParams : List String) (indices : List Nat) :
    List DataPoint → Result (List (ℚ × List ℚ))
  | [] => .returned []
  | point :: rest =>
    match dataLineValues validParams point indices with
    | .threw e => .threw e
    | .undefined => .undefined
    | .returned values =>
      match dataFileLines validParams indices rest with
      | .returned lines => .returned ((point.x, values) :: lines)
      | other => other

/-- The loop of lines 186-190 over the indices still to visit: the names in
the `plot` command. -/
def plotNames (validParams : List String) : List Nat → Option (List String)
  | [] => some []
  | i :: rest =>
    match validParams[i]?, plotNames validParams rest with
    | some name, some names => some (name :: names)
    | _, _ => none

/-- The batch loop of `generateGraphs` (lines 161-195) over the batch numbers
still to visit. -/
def batchLoop (m_data : List DataPoint) (validParams : List String) :
    List Nat → Result (List Batch)
  | [] => .returned []
  | batch :: rest =>
    let batchStart := batch * BATCH_SIZE
    let batchEnd := min (batchStart + BATCH_SIZE) validParams.length
    let indices := List.range' batchStart (batchEnd - batchStart)
    match dataFileLines validParams indices m_data with
    | .threw e => .threw e
    | .undefined => .undefined
    | .returned dataFile =>
      match plotNames validParams indices with
      | none => .undefined
      | some names =>
        match batchLoop m_data validParams rest with
        | .returned batches => .returned (⟨batch, batchStart, batchEnd, dataFile, names⟩ :: batches)
        | other => other

/-- The method `generateGraphs` (its two arguments are not used): the batches
it writes and plots, in order. -/
def generateGraphs (m_data : List DataPoint) : Result (List Batch) :=
  match m_data with
  | [] => .threw .noData
  | point0 :: _ =>
    let validParams := point0.values.keys
    let totalBatches := (validParams.length + BATCH_SIZE - 1) / BATCH_SIZE
    batchLoop m_data validParams (List.range totalBatches)

/-! ## Vocabulary of the statements -/

/-- The number held by cell `k` of a data line: `none` when the line has no
such cell, or the cell is empty or not numeric. -/
def numericCell (stod : String → Option ℚ) (line : String) (k : Nat) : Option ℚ :=
  ((getlineAll ',' line)[k]?).bind (parseCell stod)

/-- The numeric cells found in column `k` of the data lines, in line order. -/
def columnCells (stod : String → Option ℚ) (k : Nat) (dataLines : List String) : List ℚ :=
  dataLines.filterMap (fun line => numericCell stod line k)

/-- The assignment `point.values[name] = value` that the loop of lines 54-58
performs at column `col` for row `row`, if any, when `columns col` is the
content of `columnData[col]`. -/
def rowAssignment (parameters : List String) (columns : Nat → List ℚ) (row col : Nat) :
    Option (String × ℚ) :=
  match parameters[col]?, (columns col)[row]? with
  | some name, some value => some (name, value)
  | _, _ => none

/-- The map that a sequence of assignments `m[name] = value` builds from the
map `m`. -/
def assignAll (m : ValueMap) (assignments : List (String × ℚ)) : ValueMap :=
  assignments.foldl (fun values entry => values.assign entry.1 entry.2) m

/-- The slice of `validParams` that batch number `batch` covers. -/
def batchSlice (validParams : List String) (batch : Nat) : List String :=
  (validParams.drop (batch * BATCH_SIZE)).take
    (min (batch * BATCH_SIZE + BATCH_SIZE) validParams.length - batch * BATCH_SIZE)

/-- A conversion used to evaluate examples: a non-empty string of decimal
digits converts to its value and every other string to `none`. `std::stod`
agrees with it on the cells of the examples below: short digit strings, and
the words `foo` and `bar`, on which no conversion can be performed. -/
def stodDigits (s : String) : Option ℚ :=
  if s.data ≠ [] ∧ s.data.all Char.isDigit then
    some ((s.data.foldl (fun n c => 10 * n + (c.toNat - 48)) 0 : Nat) : ℚ)
  else none

/-! ## The y range of the delta panel -/

theorem minmax_foldl (ds : List ℚ) (a b : ℚ) :
    let r := ds.foldl (fun (acc : ℚ × ℚ) e =>
      (if e < acc.1 then e else acc.1, if e < acc.2 then acc.2 else e)) (a, b)
    (r.1 = a ∨ r.1 ∈ ds) ∧ r.1 ≤ a ∧ (∀ e ∈ ds, r.1 ≤ e) ∧
      (r.2 = b ∨ r.2 ∈ ds) ∧ b ≤ r.2 ∧ (∀ e ∈ ds, e ≤ r.2) := by
  induction ds generalizing a b with
  | nil => simp
  | cons d ds ih =>
    simp only [List.foldl_cons]
    have h := ih (if d < a then d else a) (if d < b then b else d)
    simp only at h ⊢
    obtain ⟨h1, h2, h3, h4, h5, h6⟩ := h
    refine ⟨?_, ?_, ?_, ?_, ?_, ?_⟩
    · rcases h1 with h1 | h1
      · rw [h1]; split_ifs <;> simp
      · simp [h1]
    · refine le_trans h2 ?_
      split_ifs with hlt
      · exact le_of_lt hlt
      · exact le_refl _
    · intro e he
      rcases List.mem_cons.mp he with rfl | he
      · refine le_trans h2 ?_
        split_ifs with hlt
        · exact le_refl _
        · exact not_lt.mp hlt
      · exact h3 e he
    · rcases h4 with h4 | h4
      · rw [h4]; split_ifs <;> simp
      · simp [h4]
    · refine le_trans ?_ h5
      split_ifs with hlt
      · exact le_refl _
      · exact not_lt.mp hlt
    · intro e he
      rcases List.mem_cons.mp he with rfl | he
      · refine le_trans ?_ h5
        split_ifs with hlt
        · exact le_of_lt hlt
        · exact le_refl _
      · exact h6 e he

theorem minmaxElement_spec {deltas : List ℚ} {lo hi : ℚ}
    (h : minmaxElement deltas = some (lo, hi)) :
    lo ∈ deltas ∧ hi ∈ deltas ∧ ∀ e ∈ deltas, lo ≤ e ∧ e ≤ hi := by
  cases deltas with
  | nil => simp [minmaxElement] at h
  | cons d ds =>
    simp only [minmaxElement, Option.some.injEq] at h
    have hf := minmax_foldl ds d d
    simp only at hf
    rw [h] at hf
    obtain ⟨h1, h2, h3, h4, h5, h6⟩ := hf
    simp only at h1 h2 h3 h4 h5 h6
    refine ⟨?_, ?_, ?_⟩
    · rcases h1 with h1 | h1 <;> simp [h1]
    · rcases h4 with h4 | h4 <;> simp [h4]
    · intro e he
      rcases List.mem_cons.mp he with rfl | he
      · exact ⟨h2, h5⟩
      · exact ⟨h3 e he, h6 e he⟩

theorem minmaxElement_of_ne_nil {deltas : List ℚ} (h : deltas ≠ []) :
    ∃ lo hi, minmaxElement deltas = some (lo, hi) := by
  cases deltas with
  | nil => exact absurd rfl h
  | cons d ds => exact ⟨_, _, rfl⟩

theorem minmaxElement_eq {deltas : List ℚ} {m M : ℚ}
    (hm : m ∈ deltas) (hm' : ∀ d ∈ deltas, m ≤ d)
    (hM : M ∈ deltas) (hM' : ∀ d ∈ deltas, d ≤ M) :
    minmaxElement deltas = some (m, M) := by
  obtain ⟨lo, hi, h⟩ := minmaxElement_of_ne_nil (List.ne_nil_of_mem hm)
  obtain ⟨h1, h2, h3⟩ := minmaxElement_spec h
  have e1 : lo = m := le_antisymm (h3 m hm).1 (hm' lo h1)
  have e2 : hi = M := le_antisymm (hM' hi h2) (h3 M hM).2
  rw [h, e1, e2]

theorem deltaYRange_eq {deltas : List ℚ} {m M : ℚ}
    (hm : m ∈ deltas) (hm' : ∀ d ∈ deltas, m ≤ d)
    (hM : M ∈ deltas) (hM' : ∀ d ∈ deltas, d ≤ M) :
    deltaYRange deltas = some (m - (M - m) * (1 / 10), M + (M - m) * (1 / 10)) := by
  simp [deltaYRange, minmaxElement_eq hm hm' hM hM']

/-- Every value returned by `compareParameterDeltas` carries the delta column
of its data file, the values of the point the lookup selected, and the y range
`deltaYRange` computes from the delta column. -/
theorem compareParameterDeltas_fields {m_data : List DataPoint} {xPoint : ℚ}
    {param1 param2 : String} {r : DeltaComparison}
    (h : compareParameterDeltas m_data xPoint param1 param2 = .returned r) :
    deltaLoop param1 param2 m_data = .returned r.dataFile ∧
      r.deltas = r.dataFile.map DeltaLine.delta ∧
      closestPoint m_data xPoint = .returned r.closest ∧
      deltaYRange r.deltas = some (r.ymin, r.ymax) ∧ m_data ≠ [] ∧
      ∃ point, m_data[r.closest]? = some point ∧
        point.values.at param1 = some r.value1 ∧
        point.values.at param2 = some r.value2 ∧ r.delta = r.value2 - r.value1 := by
  unfold compareParameterDeltas at h
  split_ifs at h with hne
  split at h <;> try (simp at h)
  split at h <;> try (simp at h)
  split at h <;> try (simp at h)
  split at h <;> try (simp at h)
  split at h <;> try (simp at h)
  rename_i hy
  subst h
  simp_all

/-! ## The delta loop -/

theorem deltaLoop_ne_undefined (param1 param2 : String) (m_data : List DataPoint) :
    deltaLoop param1 param2 m_data ≠ .undefined := by
  induction m_data with
  | nil => simp [deltaLoop]
  | cons point rest ih =>
    unfold deltaLoop
    split
    · simp
    · split
      · simp
      · split
        · simp
        · rename_i other hother
          intro h
          exact ih h

theorem deltaLoop_threw {param1 param2 : String} {m_data : List DataPoint} {e : Error}
    (h : deltaLoop param1 param2 m_data = .threw e) : e = .missingParameter := by
  induction m_data with
  | nil => simp [deltaLoop] at h
  | cons point rest ih =>
    unfold deltaLoop at h
    split at h
    · simpa using h.symm
    · split at h
      · simpa using h.symm
      · split at h
        · simp at h
        · exact ih h

theorem deltaLoop_returned_iff (param1 param2 : String) (m_data : List DataPoint)
    (lines : List DeltaLine) :
    deltaLoop param1 param2 m_data = .returned lines ↔
      List.Forall₂ (fun (point : DataPoint) (line : DeltaLine) =>
        line.x = point.x ∧ point.values.at param1 = some line.value1 ∧
          point.values.at param2 = some line.value2 ∧
          line.delta = line.value2 - line.value1) m_data lines := by
  induction m_data generalizing lines with
  | nil =>
    cases lines <;> simp [deltaLoop]
  | cons point rest ih =>
    unfold deltaLoop
    cases h1 : point.values.at param1 with
    | none =>
      simp only
      constructor
      · intro h; simp at h
      · intro h
        cases h with
        | cons hh _ => rw [h1] at hh; simp at hh
    | some value1 =>
      cases h2 : point.values.at param2 with
      | none =>
        simp only
        constructor
        · intro h; simp at h
        · intro h
          cases h with
          | cons hh _ => rw [h2] at hh; simp at hh
      | some value2 =>
        simp only
        cases h3 : deltaLoop param1 param2 rest with
        | returned ls =>
          simp only [Result.returned.injEq]
          constructor
          · intro h
            subst h
            exact List.Forall₂.cons ⟨rfl, h1, h2, rfl⟩ ((ih ls).mp h3)
          · intro h
            cases h with
            | @cons _ line _ ls' hh ht =>
              have := (ih ls').mpr ht
              rw [h3] at this
              simp only [Result.returned.injEq] at this
              subst this
              obtain ⟨hx, hv1, hv2, hd⟩ := hh
              rw [h1] at hv1
              rw [h2] at hv2
              simp only [Option.some.injEq] at hv1 hv2
              cases line
              simp_all
        | threw e =>
          simp only
          constructor
          · intro h; simp at h
          · intro h
            cases h with
            | @cons _ line _ ls' hh ht =>
              have := (ih ls').mpr ht
              rw [h3] at this
              simp at this
        | undefined =>
          exact absurd h3 (deltaLoop_ne_undefined _ _ _)

/-- When every point holds both parameters the loop returns one line per point. -/
theorem deltaLoop_total {param1 param2 : String} {m_data : List DataPoint}
    (h : ∀ point ∈ m_data, (∃ v1, point.values.at param1 = some v1) ∧
      ∃ v2, point.values.at param2 = some v2) :
    ∃ lines, deltaLoop param1 param2 m_data = .returned lines := by
  induction m_data with
  | nil => exact ⟨[], rfl⟩
  | cons point rest ih =>
    obtain ⟨⟨v1, h1⟩, ⟨v2, h2⟩⟩ := h point (List.mem_cons_self _ _)
    obtain ⟨lines, hl⟩ := ih (fun q hq => h q (List.mem_cons_of_mem _ hq))
    exact ⟨⟨point.x, v1, v2, v2 - v1⟩ :: lines, by simp [deltaLoop, h1, h2, hl]⟩

theorem deltaLoop_index {param1 param2 : String} {m_data : List DataPoint}
    {lines : List DeltaLine} (h : deltaLoop param1 param2 m_data = .returned lines) :
    lines.length = m_data.length ∧
      ∀ (i : Nat) (point : DataPoint), m_data[i]? = some point →
        ∃ v1 v2, point.values.at param1 = some v1 ∧ point.values.at param2 = some v2 ∧
          lines[i]? = some ⟨point.x, v1, v2, v2 - v1⟩ := by
  induction m_data generalizing lines with
  | nil =>
    simp [deltaLoop] at h
    subst h
    simp
  | cons p rest ih =>
    rw [deltaLoop_returned_iff] at h
    cases h with
    | @cons _ line _ ls hh ht =>
      rw [← deltaLoop_returned_iff] at ht
      obtain ⟨hlen, hidx⟩ := ih ht
      refine ⟨by simp [hlen], ?_⟩
      intro i point hi
      cases i with
      | zero =>
        simp only [List.getElem?_cons_zero, Option.some.injEq] at hi
        subst hi
        obtain ⟨hx, hv1, hv2, hd⟩ := hh
        refine ⟨line.value1, line.value2, hv1, hv2, ?_⟩
        cases line
        simp_all
      | succ i =>
        simp only [List.getElem?_cons_succ] at hi ⊢
        exact hidx i point hi

/-- A point without one of the two parameters makes the loop throw. -/
theorem deltaLoop_missing {param1 param2 : String} {m_data : List DataPoint}
    (h : ∃ point ∈ m_data, point.values.at param1 = none ∨ point.values.at param2 = none) :
    deltaLoop param1 param2 m_data = .threw .missingParameter := by
  cases hr : deltaLoop param1 param2 m_data with
  | returned lines =>
    exfalso
    obtain ⟨point, hmem, hmiss⟩ := h
    obtain ⟨i, hi⟩ := List.mem_iff_getElem?.mp hmem
    obtain ⟨v1, v2, h1, h2, _⟩ := (deltaLoop_index hr).2 i point hi
    rcases hmiss with hmiss | hmiss
    · rw [hmiss] at h1; simp at h1
    · rw [hmiss] at h2; simp at h2
  | threw e => rw [deltaLoop_threw hr]
  | undefined => exact absurd hr (deltaLoop_ne_undefined _ _ _)

/-! ## The lookup of the closest point -/

/-- On a range inside `m_data` the binary search returns an index of the range
or its end; it never indexes out of range. -/
theorem lowerBound_total (m_data : List DataPoint) (value : ℚ) :
    ∀ (count first : Nat), first + count ≤ m_data.length →
      ∃ i, lowerBound m_data value first count = some i ∧ first ≤ i ∧ i ≤ first + count := by
  intro count
  induction count using Nat.strong_induction_on with
  | _ count ih =>
    intro first hle
    rw [lowerBound]
    by_cases hc : count = 0
    · simp [hc]
    · simp only [hc, if_false]
      have hlt : first + count / 2 < m_data.length := by omega
      rw [List.getElem?_eq_getElem hlt]
      simp only
      split_ifs with hx
      · obtain ⟨i, hi, h1, h2⟩ := ih (count - (count / 2 + 1)) (by omega)
          (first + count / 2 + 1) (by omega)
        exact ⟨i, hi, by omega, by omega⟩
      · obtain ⟨i, hi, h1, h2⟩ := ih (count / 2) (by omega) first (by omega)
        exact ⟨i, hi, by omega, by omega⟩

/-- On a table sorted by X the binary search returns the partition point of the
range: everything before it is below `value`, everything from it on is not. -/
theorem lowerBound_sorted (m_data : List DataPoint) (value : ℚ)
    (hs : m_data.Pairwise (fun a b => a.x ≤ b.x)) :
    ∀ (count first : Nat), first + count ≤ m_data.length →
      (∀ (j : Nat) (hj : j < m_data.length), j < first → m_data[j].x < value) →
      (∀ (j : Nat) (hj : j < m_data.length), first + count ≤ j → value ≤ m_data[j].x) →
      ∃ i, lowerBound m_data value first count = some i ∧ i ≤ m_data.length ∧
        (∀ (j : Nat) (hj : j < m_data.length), j < i → m_data[j].x < value) ∧
        (∀ (j : Nat) (hj : j < m_data.length), i ≤ j → value ≤ m_data[j].x) := by
  intro count
  induction count using Nat.strong_induction_on with
  | _ count ih =>
    intro first hle hlo hhi
    rw [lowerBound]
    by_cases hc : count = 0
    · simp only [hc, if_true]
      exact ⟨first, rfl, by omega, hlo, fun j hj hfj => hhi j hj (by omega)⟩
    · simp only [hc, if_false]
      have hlt : first + count / 2 < m_data.length := by omega
      rw [List.getElem?_eq_getElem hlt]
      simp only
      have hmono : ∀ (a b : Nat) (ha : a < m_data.length) (hb : b < m_data.length),
          a ≤ b → m_data[a].x ≤ m_data[b].x := by
        intro a b ha hb hab
        rcases Nat.lt_or_eq_of_le hab with h | h
        · exact List.pairwise_iff_getElem.mp hs a b ha hb h
        · subst h; exact le_refl _
      split_ifs with hx
      · exact ih (count - (count / 2 + 1)) (by omega) (first + count / 2 + 1) (by omega)
          (fun j hj hjf => lt_of_le_of_lt (hmono j _ hj hlt (by omega)) hx)
          (fun j hj hjf => hhi j hj (by omega))
      · exact ih (count / 2) (by omega) first (by omega) hlo
          (fun j hj hjf => le_trans (not_lt.mp hx) (hmono _ j hlt hj hjf))

theorem closestPoint_ne_undefined (m_data : List DataPoint) (xPoint : ℚ) :
    closestPoint m_data xPoint ≠ .undefined := by
  obtain ⟨i, hi, _, _⟩ := lowerBound_total m_data xPoint m_data.length 0 (by omega)
  unfold closestPoint
  rw [hi]
  simp only
  split_ifs <;> simp

theorem closestPoint_returned_lt {m_data : List DataPoint} {xPoint : ℚ} {index : Nat}
    (h : closestPoint m_data xPoint = .returned index) : index < m_data.length := by
  obtain ⟨i, hi, _, hle⟩ := lowerBound_total m_data xPoint m_data.length 0 (by omega)
  unfold closestPoint at h
  rw [hi] at h
  simp only at h
  split_ifs at h with he
  simp only [Result.returned.injEq] at h
  omega

theorem closestPoint_threw {m_data : List DataPoint} {xPoint : ℚ} {e : Error}
    (h : closestPoint m_data xPoint = .threw e) : e = .beyondRange := by
  unfold closestPoint at h
  split at h
  · simp at h
  · split_ifs at h
    simpa using h.symm

/-- The lookup on a table sorted by X: the index found is the partition point
of the whole table. -/
theorem closestPoint_sorted (m_data : List DataPoint) (xPoint : ℚ)
    (hs : m_data.Pairwise (fun a b => a.x ≤ b.x)) :
    ∃ i, i ≤ m_data.length ∧
      closestPoint m_data xPoint =
        (if i = m_data.length then .threw .beyondRange else .returned i) ∧
      (∀ (j : Nat) (hj : j < m_data.length), j < i → m_data[j].x < xPoint) ∧
      (∀ (j : Nat) (hj : j < m_data.length), i ≤ j → xPoint ≤ m_data[j].x) := by
  obtain ⟨i, hi, hle, hlo, hhi⟩ := lowerBound_sorted m_data xPoint hs m_data.length 0
    (by omega) (fun j _ hj => absurd hj (Nat.not_lt_zero j)) (fun j hj hjl => by omega)
  refine ⟨i, hle, ?_, hlo, hhi⟩
  unfold closestPoint
  rw [hi]

/-- The outcome of `compareParameterDeltas` on a non-empty table whose points
all hold both parameters is decided by the lookup alone. -/
theorem compareParameterDeltas_of_total {m_data : List DataPoint} (xPoint : ℚ)
    {param1 param2 : String} (hne : m_data ≠ [])
    (h : ∀ point ∈ m_data, (∃ v1, point.values.at param1 = some v1) ∧
      ∃ v2, point.values.at param2 = some v2) :
    (closestPoint m_data xPoint = .threw .beyondRange ∧
      compareParameterDeltas m_data xPoint param1 param2 = .threw .beyondRange) ∨
    (∃ r, compareParameterDeltas m_data xPoint param1 param2 = .returned r) := by
  obtain ⟨lines, hl⟩ := deltaLoop_total h
  cases hc : closestPoint m_data xPoint with
  | undefined => exact absurd hc (closestPoint_ne_undefined _ _)
  | threw e =>
    left
    have he := closestPoint_threw hc
    subst he
    refine ⟨rfl, ?_⟩
    simp [compareParameterDeltas, hne, hl, hc]
  | returned index =>
    right
    have hlt := closestPoint_returned_lt hc
    obtain ⟨⟨v1, h1⟩, ⟨v2, h2⟩⟩ := h m_data[index] (List.getElem_mem _)
    have hlen : (lines.map DeltaLine.delta) ≠ [] := by
      have := (deltaLoop_index hl).1
      intro hnil
      have h0 : lines.length = 0 := by simpa using congrArg List.length hnil
      rw [h0] at this
      exact hne (List.length_eq_zero.mp this.symm)
    obtain ⟨lo, hi, hmm⟩ := minmaxElement_of_ne_nil hlen
    refine ⟨⟨lines, lines.map DeltaLine.delta, index, v1, v2, v2 - v1,
      lo - (hi - lo) * (1 / 10), hi + (hi - lo) * (1 / 10)⟩, ?_⟩
    simp [compareParameterDeltas, hne, hl, hc, List.getElem?_eq_getElem hlt, h1, h2,
      deltaYRange, hmm]

/-! ## The batch loop of `generateGraphs` -/

theorem plotNames_range' (validParams : List String) :
    ∀ (len start : Nat), start + len ≤ validParams.length →
      plotNames validParams (List.range' start len) = some ((validParams.drop start).take len) := by
  intro len
  induction len with
  | zero => intro start _; simp [plotNames]
  | succ len ih =>
    intro start hle
    have hlt : start < validParams.length := by omega
    rw [List.range'_succ, plotNames, List.getElem?_eq_getElem hlt, ih (start + 1) (by omega),
      List.drop_eq_getElem_cons hlt, List.take_succ_cons]

theorem dataLineValues_total (validParams : List String) (point : DataPoint) :
    ∀ indices : List Nat,
      (∀ i ∈ indices, ∃ name, validParams[i]? = some name ∧
        ∃ v, point.values.at name = some v) →
      ∃ values, dataLineValues validParams point indices = .returned values := by
  intro indices
  induction indices with
  | nil => intro _; exact ⟨[], rfl⟩
  | cons i rest ih =>
    intro h
    obtain ⟨name, hn, v, hv⟩ := h i (List.mem_cons_self _ _)
    obtain ⟨values, hvals⟩ := ih (fun j hj => h j (List.mem_cons_of_mem _ hj))
    exact ⟨v :: values, by simp [dataLineValues, hn, hv, hvals]⟩

theorem dataFileLines_total (validParams : List String) (indices : List Nat) :
    ∀ m_data : List DataPoint,
      (∀ point ∈ m_data, ∀ i ∈ indices, ∃ name, validParams[i]? = some name ∧
        ∃ v, point.values.at name = some v) →
      ∃ lines, dataFileLines validParams indices m_data = .returned lines ∧
        lines.length = m_data.length := by
  intro m_data
  induction m_data with
  | nil => intro _; exact ⟨[], rfl, rfl⟩
  | cons point rest ih =>
    intro h
    obtain ⟨values, hv⟩ := dataLineValues_total validParams point indices
      (h point (List.mem_cons_self _ _))
    obtain ⟨lines, hl, hlen⟩ := ih (fun q hq => h q (List.mem_cons_of_mem _ hq))
    exact ⟨(point.x, values) :: lines, by simp [dataFileLines, hv, hl], by simp [hlen]⟩

theorem batchLoop_spec (m_data : List DataPoint) (validParams : List String)
    (hall : ∀ point ∈ m_data, ∀ name ∈ validParams, ∃ v, point.values.at name = some v) :
    ∀ numbers : List Nat,
      ∃ batches, batchLoop m_data validParams numbers = .returned batches ∧
        batches.length = numbers.length ∧
        ∀ (k : Nat) (b : Nat), numbers[k]? = some b →
          ∃ B, batches[k]? = some B ∧ B.batch = b ∧ B.batchStart = b * BATCH_SIZE ∧
            B.batchEnd = min (b * BATCH_SIZE + BATCH_SIZE) validParams.length ∧
            B.names = batchSlice validParams b ∧ B.dataFile.length = m_data.length := by
  intro numbers
  induction numbers with
  | nil => exact ⟨[], rfl, rfl, by simp⟩
  | cons b rest ih =>
    obtain ⟨batches, hb, hlen, hidx⟩ := ih
    have hind : ∀ i ∈ List.range' (b * BATCH_SIZE)
        (min (b * BATCH_SIZE + BATCH_SIZE) validParams.length - b * BATCH_SIZE),
        i < validParams.length := by
      intro i hi
      rw [List.mem_range'_1] at hi
      omega
    obtain ⟨lines, hl, hllen⟩ := dataFileLines_total validParams _ m_data
      (fun point hp i hi =>
        have : i < validParams.length := hind i hi
        ⟨validParams[i], List.getElem?_eq_getElem (hind i hi),
          hall point hp _ (List.getElem_mem _)⟩)
    have hnames : plotNames validParams (List.range' (b * BATCH_SIZE)
        (min (b * BATCH_SIZE + BATCH_SIZE) validParams.length - b * BATCH_SIZE)) =
        some (batchSlice validParams b) := by
      by_cases hle : b * BATCH_SIZE ≤ validParams.length
      · exact plotNames_range' validParams _ _ (by omega)
      · have h0 : min (b * BATCH_SIZE + BATCH_SIZE) validParams.length - b * BATCH_SIZE = 0 := by
          omega
        simp [batchSlice, h0, plotNames]
    refine ⟨⟨b, b * BATCH_SIZE, min (b * BATCH_SIZE + BATCH_SIZE) validParams.length, lines,
      batchSlice validParams b⟩ :: batches, ?_, by simp [hlen], ?_⟩
    · rw [batchLoop]
      simp only [hl, hnames, hb]
    · intro k b' hk
      cases k with
      | zero =>
        simp only [List.getElem?_cons_zero, Option.some.injEq] at hk
        subst hk
        exact ⟨⟨b, b * BATCH_SIZE, min (b * BATCH_SIZE + BATCH_SIZE) validParams.length, lines,
          batchSlice validParams b⟩, by simp, rfl, rfl, rfl, rfl, hllen⟩
      | succ k =>
        simp only [List.getElem?_cons_succ] at hk ⊢
        exact hidx k b' hk

theorem flatten_batchSlice (validParams : List String) (total : Nat) :
    ((List.range total).map (batchSlice validParams)).flatten =
      validParams.take (total * BATCH_SIZE) := by
  induction total with
  | zero => simp
  | succ t ih =>
    rw [List.range_succ, List.map_append, List.flatten_append, ih]
    simp only [List.map_cons, List.map_nil, List.flatten_cons, List.flatten_nil,
      List.append_nil, batchSlice]
    rw [Nat.succ_mul, List.take_add]
    congr 1
    by_cases hle : t * BATCH_SIZE + BATCH_SIZE ≤ validParams.length
    · rw [Nat.min_eq_left hle]
      congr 1
      omega
    · rw [Nat.min_eq_right (by omega)]
      rw [List.take_of_length_le (by simp), List.take_of_length_le (by simp; omega)]

/-! ## The map of a data point -/

theorem ValueMap.at_assign (m : ValueMap) (key : String) (value : ℚ) (name : String) :
    (m.assign key value).at name = if name = key then some value else m.at name := by
  induction m with
  | nil => simp [ValueMap.assign, ValueMap.at]
  | cons entry rest ih =>
    obtain ⟨k, v⟩ := entry
    unfold ValueMap.assign
    by_cases h1 : key < k
    · simp only [h1, if_true]
      by_cases hn : name = key
      · simp [ValueMap.at, hn]
      · simp only [hn, if_false]
        rw [ValueMap.at]
        simp only [hn, if_false]
    · simp only [h1, if_false]
      by_cases h2 : key = k
      · simp only [h2, if_true]
        by_cases hn : name = k
        · simp [ValueMap.at, hn]
        · simp [ValueMap.at, hn]
      · simp only [h2, if_false]
        rw [ValueMap.at, ih]
        by_cases hn : name = key
        · have hnk : ¬ name = k := by rw [hn]; exact h2
          simp [hn, h2]
        · simp only [hn, if_false]
          rw [ValueMap.at]

theorem ValueMap.mem_keys_iff (m : ValueMap) (name : String) :
    name ∈ m.keys ↔ m.at name ≠ none := by
  induction m with
  | nil => simp [ValueMap.keys, ValueMap.at]
  | cons entry rest ih =>
    obtain ⟨k, v⟩ := entry
    simp only [ValueMap.keys, List.map_cons, List.mem_cons] at ih ⊢
    rw [ValueMap.at]
    by_cases hn : name = k
    · simp [hn]
    · simp only [hn, false_or, if_false]
      exact ih

theorem ValueMap.keys_assign_subset (m : ValueMap) (key : String) (value : ℚ) :
    ∀ name ∈ (m.assign key value).keys, name = key ∨ name ∈ m.keys := by
  intro name hname
  rw [ValueMap.mem_keys_iff, ValueMap.at_assign] at hname
  by_cases hn : name = key
  · exact Or.inl hn
  · simp only [hn, if_false] at hname
    exact Or.inr ((ValueMap.mem_keys_iff m name).mpr hname)

/-- The assignment keeps the keys in strictly ascending order. -/
theorem ValueMap.sorted_assign (m : ValueMap) (key : String) (value : ℚ)
    (h : m.keys.Sorted (· < ·)) : (m.assign key value).keys.Sorted (· < ·) := by
  induction m with
  | nil => simp [ValueMap.assign, ValueMap.keys]
  | cons entry rest ih =>
    obtain ⟨k, v⟩ := entry
    have hk : (∀ b ∈ ValueMap.keys rest, k < b) ∧ (ValueMap.keys rest).Sorted (· < ·) := by
      simpa [ValueMap.keys, List.sorted_cons] using h
    unfold ValueMap.assign
    by_cases h1 : key < k
    · simp only [h1, if_true]
      have : ValueMap.keys ((key, value) :: (k, v) :: rest) = key :: ValueMap.keys ((k, v) :: rest) :=
        rfl
      rw [this, List.sorted_cons]
      refine ⟨?_, h⟩
      intro b hb
      have hb' : b = k ∨ b ∈ ValueMap.keys rest := by
        simpa [ValueMap.keys] using hb
      rcases hb' with rfl | hb'
      · exact h1
      · exact lt_trans h1 (hk.1 b hb')
    · simp only [h1, if_false]
      by_cases h2 : key = k
      · simp only [h2, if_true]
        exact h
      · simp only [h2, if_false]
        have : ValueMap.keys ((k, v) :: ValueMap.assign rest key value) =
            k :: ValueMap.keys (ValueMap.assign rest key value) := rfl
        rw [this, List.sorted_cons]
        refine ⟨?_, ih hk.2⟩
        intro b hb
        rcases ValueMap.keys_assign_subset rest key value b hb with rfl | hb'
        · rcases lt_trichotomy b k with h' | h' | h'
          · exact absurd h' h1
          · exact absurd h' h2
          · exact h'
        · exact hk.1 b hb'

/-! ## The column store of `readCSV` -/

theorem getlineChars_eq_nil (delim : Char) (cs : List Char) :
    getlineChars delim cs = [] ↔ cs = [] := by
  cases cs with
  | nil => simp [getlineChars]
  | cons c rest =>
    simp only [getlineChars]
    split_ifs
    · simp
    · split <;> simp

theorem getlineAll_eq_nil (delim : Char) (text : String) :
    getlineAll delim text = [] ↔ text = "" := by
  simp only [getlineAll, List.map_eq_nil_iff, getlineChars_eq_nil]
  constructor
  · intro h
    cases text
    simp_all
  · intro h
    rw [h]

/-- One call of `std::getline` on a stream that starts with a piece free of
the delimiter, followed by the delimiter: the piece is extracted, the
delimiter is dropped, and the next call reads what follows. -/
theorem getlineChars_piece (delim : Char) (piece rest : List Char) (h : delim ∉ piece) :
    getlineChars delim (piece ++ delim :: rest) = piece :: getlineChars delim rest := by
  induction piece with
  | nil => simp [getlineChars]
  | cons c cs ih =>
    have hc : ¬ c = delim := fun e => h (by simp [e])
    have hcs : delim ∉ cs := fun e => h (List.mem_cons_of_mem _ e)
    have ih' := ih hcs
    rw [List.cons_append, getlineChars]
    simp only [hc, if_false]
    rw [ih']

/-- The last call of `std::getline` that succeeds, on a stream holding a
non-empty piece free of the delimiter: the piece is extracted and the next
call fails. -/
theorem getlineChars_last (delim : Char) (piece : List Char) (h : delim ∉ piece)
    (hne : piece ≠ []) : getlineChars delim piece = [piece] := by
  induction piece with
  | nil => exact absurd rfl hne
  | cons c cs ih =>
    have hc : ¬ c = delim := fun e => h (by simp [e])
    have hcs : delim ∉ cs := fun e => h (List.mem_cons_of_mem _ e)
    cases cs with
    | nil => simp [getlineChars, hc]
    | cons d ds =>
      simp only [getlineChars, hc, if_false] at ih ⊢
      rw [ih hcs (by simp)]

theorem getlineAll_examples :
    getlineAll ',' "x,a,,b," = ["x", "a", "", "b"] ∧
      getlineAll ',' "" = [] ∧ getlineAll ',' "," = [""] ∧
      getlineAll '\n' "x,a\n\n1,2\n" = ["x,a", "", "1,2"] ∧
      getlineAll '\n' "x,a\n1,2" = ["x,a", "1,2"] := by
  refine ⟨?_, ?_, ?_, ?_, ?_⟩ <;> decide

/-- One pass of the inner loop appends to each column the numeric cell the
line holds for it, when there is one. -/
theorem readCells_spec (stod : String → Option ℚ) (n : Nat) :
    ∀ (cells : List String) (colIndex : Nat) (columnData : List (List ℚ)),
      columnData.length = n →
      ∃ columnData', readCells stod n cells colIndex columnData = some columnData' ∧
        columnData'.length = n ∧
        ∀ k : Nat, k < n → columnData'[k]? = (columnData[k]?).map (fun column =>
          column ++ (if colIndex ≤ k then
            ((cells[k - colIndex]?).bind (parseCell stod)).toList else [])) := by
  intro cells
  induction cells with
  | nil =>
    intro colIndex columnData hlen
    refine ⟨columnData, rfl, hlen, ?_⟩
    intro k hk
    have hk' : k < columnData.length := by omega
    simp [List.getElem?_eq_getElem hk']
  | cons cell rest ih =>
    intro colIndex columnData hlen
    unfold readCells
    by_cases hc : colIndex < n
    · simp only [hc, if_true]
      cases hp : parseCell stod cell with
      | none =>
        simp only
        obtain ⟨cd, hcd, hcdlen, hidx⟩ := ih (colIndex + 1) columnData hlen
        refine ⟨cd, hcd, hcdlen, ?_⟩
        intro k hk
        rw [hidx k hk]
        have hk' : k < columnData.length := by omega
        simp only [List.getElem?_eq_getElem hk', Option.map_some', Option.some.injEq]
        congr 1
        by_cases h1 : colIndex + 1 ≤ k
        · have h2 : colIndex ≤ k := by omega
          have h3 : k - colIndex = (k - (colIndex + 1)) + 1 := by omega
          simp only [h1, h2, if_true]
          rw [h3, List.getElem?_cons_succ]
        · simp only [h1, if_false]
          by_cases h2 : colIndex ≤ k
          · have h3 : k - colIndex = 0 := by omega
            simp [h2, h3, hp]
          · simp [h2]
      | some value =>
        simp only
        have hpush : pushBackAt columnData colIndex value =
            some (columnData.modify (fun column => column ++ [value]) colIndex) := by
          simp [pushBackAt, hlen, hc]
        rw [hpush]
        simp only
        obtain ⟨cd, hcd, hcdlen, hidx⟩ := ih (colIndex + 1)
          (columnData.modify (fun column => column ++ [value]) colIndex)
          (by rw [List.length_modify]; exact hlen)
        refine ⟨cd, hcd, hcdlen, ?_⟩
        intro k hk
        rw [hidx k hk, List.getElem?_modify]
        have hk' : k < columnData.length := by omega
        simp only [List.getElem?_eq_getElem hk', Option.map_some', Option.some.injEq,
          Option.map_eq_map]
        by_cases h1 : colIndex + 1 ≤ k
        · have h2 : colIndex ≤ k := by omega
          have h3 : k - colIndex = (k - (colIndex + 1)) + 1 := by omega
          have h4 : ¬ colIndex = k := by omega
          simp only [h1, h2, h4, if_true, if_false]
          rw [h3, List.getElem?_cons_succ]
        · simp only [h1, if_false]
          by_cases h2 : colIndex = k
          · have h3 : k - colIndex = 0 := by omega
            simp [h2, hp]
          · have h3 : ¬ colIndex ≤ k := by omega
            simp [h2, h3]
    · simp only [hc, if_false]
      refine ⟨columnData, rfl, hlen, ?_⟩
      intro k hk
      have hk' : k < columnData.length := by omega
      have h2 : ¬ colIndex ≤ k := by omega
      simp [List.getElem?_eq_getElem hk', h2]

/-- With at least one column, the loop over the data lines appends to column
`k` the numeric cells of column `k`, and leaves in `dataRowCount` the length of
column 0. -/
theorem readLines_spec (stod : String → Option ℚ) (n : Nat) (hn : 0 < n) :
    ∀ (dataLines : List String) (columnData : List (List ℚ)) (dataRowCount : Nat),
      columnData.length = n →
      (∀ column0, columnData[0]? = some column0 → dataRowCount = column0.length) →
      ∃ columnData' dataRowCount',
        readLines stod n dataLines columnData dataRowCount = some (columnData', dataRowCount') ∧
        columnData'.length = n ∧
        (∀ column0, columnData'[0]? = some column0 → dataRowCount' = column0.length) ∧
        ∀ k : Nat, k < n → columnData'[k]? = (columnData[k]?).map (fun column =>
          column ++ columnCells stod k dataLines) := by
  intro dataLines
  induction dataLines with
  | nil =>
    intro columnData dataRowCount hlen hcount
    refine ⟨columnData, dataRowCount, rfl, hlen, hcount, ?_⟩
    intro k hk
    have hk' : k < columnData.length := by omega
    simp [List.getElem?_eq_getElem hk', columnCells]
  | cons line rest ih =>
    intro columnData dataRowCount hlen hcount
    obtain ⟨cd, hcd, hcdlen, hidx⟩ := readCells_spec stod n (getlineAll ',' line) 0 columnData hlen
    have h0 : 0 < cd.length := by omega
    have h0' : 0 < columnData.length := by omega
    have hgrow : dataRowCount ≤ (cd[0]).length := by
      have := hidx 0 hn
      rw [List.getElem?_eq_getElem h0, List.getElem?_eq_getElem h0'] at this
      simp only [Option.map_some', Option.some.injEq] at this
      rw [this, hcount _ (List.getElem?_eq_getElem h0')]
      simp
    obtain ⟨cd', cnt', hrest, hlen', hcount', hidx'⟩ := ih cd (max dataRowCount (cd[0]).length)
      hcdlen (by
        intro column0 hc0
        rw [List.getElem?_eq_getElem h0] at hc0
        simp only [Option.some.injEq] at hc0
        rw [← hc0]
        omega)
    refine ⟨cd', cnt', ?_, hlen', hcount', ?_⟩
    · rw [readLines, hcd]
      simp only [List.getElem?_eq_getElem h0]
      exact hrest
    · intro k hk
      rw [hidx' k hk, hidx k hk]
      have hk' : k < columnData.length := by omega
      simp only [List.getElem?_eq_getElem hk', Option.map_some', Option.some.injEq,
        Nat.zero_le, if_true, Nat.sub_zero, List.append_assoc]
      congr 1
      simp only [columnCells, List.filterMap_cons, numericCell]
      cases ((getlineAll ',' line)[k]?).bind (parseCell stod) <;> simp

/-- Without any column (an empty header line) the first data line makes the
loop index `columnData[0]` out of range. -/
theorem readLines_no_column (stod : String → Option ℚ) (line : String) (rest : List String)
    (dataRowCount : Nat) : readLines stod 0 (line :: rest) [] dataRowCount = none := by
  rw [readLines]
  have : readCells stod 0 (getlineAll ',' line) 0 [] = some [] := by
    cases getlineAll ',' line <;> simp [readCells]
  rw [this]
  simp

/-! ## The rows of `readCSV` -/

theorem assignAll_sorted (assignments : List (String × ℚ)) :
    ∀ m : ValueMap, m.keys.Sorted (· < ·) → (assignAll m assignments).keys.Sorted (· < ·) := by
  induction assignments with
  | nil => intro m h; exact h
  | cons entry rest ih =>
    intro m h
    exact ih _ (ValueMap.sorted_assign m entry.1 entry.2 h)

theorem assignAll_frame (name : String) (assignments : List (String × ℚ)) :
    ∀ m : ValueMap, (∀ entry ∈ assignments, entry.1 ≠ name) →
      (assignAll m assignments).at name = m.at name := by
  induction assignments with
  | nil => intro m _; rfl
  | cons entry rest ih =>
    intro m h
    have h1 := h entry (List.mem_cons_self _ _)
    have := ih (m.assign entry.1 entry.2) (fun e he => h e (List.mem_cons_of_mem _ he))
    simp only [assignAll, List.foldl_cons] at this ⊢
    rw [this, ValueMap.at_assign]
    simp [Ne.symm h1]

theorem assignAll_mem (name : String) (assignments : List (String × ℚ)) :
    ∀ m : ValueMap, (assignAll m assignments).at name ≠ none ↔
      (m.at name ≠ none ∨ ∃ entry ∈ assignments, entry.1 = name) := by
  induction assignments with
  | nil => intro m; simp [assignAll]
  | cons entry rest ih =>
    intro m
    have := ih (m.assign entry.1 entry.2)
    simp only [assignAll, List.foldl_cons] at this ⊢
    rw [this, ValueMap.at_assign]
    by_cases hn : name = entry.1
    · simp [hn]
    · have hn' : ¬ entry.1 = name := fun h => hn h.symm
      simp [hn, hn']

theorem assignAll_hit (name : String) (value : ℚ) (assignments : List (String × ℚ)) :
    ∀ m : ValueMap, (name, value) ∈ assignments →
      (∀ entry ∈ assignments, entry.1 = name → entry.2 = value) →
      (assignAll m assignments).at name = some value := by
  induction assignments with
  | nil => intro m h; simp at h
  | cons entry rest ih =>
    intro m hmem huniq
    by_cases hrest : (name, value) ∈ rest
    · have := ih (m.assign entry.1 entry.2) hrest
        (fun e he => huniq e (List.mem_cons_of_mem _ he))
      simpa [assignAll] using this
    · have hentry : entry = (name, value) := by
        rcases List.mem_cons.mp hmem with h | h
        · exact h.symm
        · exact absurd h hrest
      have hnone : ∀ e ∈ rest, e.1 ≠ name := by
        intro e he hname
        apply hrest
        have h2 := huniq e (List.mem_cons_of_mem _ he) hname
        have : e = (name, value) := Prod.ext hname h2
        rw [← this]
        exact he
      have := assignAll_frame name rest (m.assign entry.1 entry.2) hnone
      simp only [assignAll, List.foldl_cons] at this ⊢
      rw [this, ValueMap.at_assign, hentry]
      simp

/-- The loop of lines 54-58 performs, in column order, the assignments of the
columns that reach row `row`; it never indexes out of range. -/
theorem rowValues_eq (parameters : List String) (columnData : List (List ℚ))
    (columns : Nat → List ℚ) (row : Nat) :
    ∀ (cols : List Nat) (values : ValueMap),
      (∀ col ∈ cols, col < parameters.length ∧ columnData[col]? = some (columns col)) →
      rowValues parameters columnData row cols values =
        some (assignAll values (cols.filterMap (rowAssignment parameters columns row))) := by
  intro cols
  induction cols with
  | nil => intro values _; rfl
  | cons col rest ih =>
    intro values h
    obtain ⟨hcol, hcd⟩ := h col (List.mem_cons_self _ _)
    have hrest := fun v => ih v (fun c hc => h c (List.mem_cons_of_mem _ hc))
    rw [rowValues, hcd]
    simp only [List.filterMap_cons, rowAssignment, List.getElem?_eq_getElem hcol]
    by_cases hrow : row < (columns col).length
    · simp only [hrow, if_true, List.getElem?_eq_getElem hrow]
      rw [hrest]
      rfl
    · simp only [hrow, if_false, List.getElem?_eq_none (Nat.le_of_not_lt hrow)]
      rw [hrest]

/-- The loop of lines 50-60 pushes one point per row index: its X value from
column 0 and the map built by the assignments of its row. -/
theorem buildRows_spec (parameters : List String) (columnData : List (List ℚ))
    (columns : Nat → List ℚ)
    (hcd : ∀ col : Nat, col < parameters.length → columnData[col]? = some (columns col))
    (hn : 0 < parameters.length) :
    ∀ rows : List Nat, (∀ row ∈ rows, row < (columns 0).length) →
      ∃ points, buildRows parameters columnData rows = some points ∧
        List.Forall₂ (fun (row : Nat) (point : DataPoint) =>
          (columns 0)[row]? = some point.x ∧
          point.values = assignAll [] ((List.range' 1 (parameters.length - 1)).filterMap
            (rowAssignment parameters columns row))) rows points := by
  intro rows
  induction rows with
  | nil => intro _; exact ⟨[], rfl, List.Forall₂.nil⟩
  | cons row rest ih =>
    intro h
    have hrow := h row (List.mem_cons_self _ _)
    obtain ⟨points, hp, hrel⟩ := ih (fun r hr => h r (List.mem_cons_of_mem _ hr))
    have hvals := rowValues_eq parameters columnData columns row
      (List.range' 1 (parameters.length - 1)) [] (by
        intro col hc
        rw [List.mem_range'_1] at hc
        have : col < parameters.length := by omega
        exact ⟨this, hcd col this⟩)
    refine ⟨⟨(columns 0)[row], assignAll [] ((List.range' 1 (parameters.length - 1)).filterMap
      (rowAssignment parameters columns row))⟩ :: points, ?_, ?_⟩
    · rw [buildRows, hcd 0 hn]
      simp only [List.getElem?_eq_getElem hrow, hvals, hp]
    · exact List.Forall₂.cons ⟨List.getElem?_eq_getElem hrow, rfl⟩ hrel

theorem rowAssignment_eq_some {parameters : List String} {columns : Nat → List ℚ}
    {row col : Nat} {entry : String × ℚ} :
    rowAssignment parameters columns row col = some entry ↔
      parameters[col]? = some entry.1 ∧ (columns col)[row]? = some entry.2 := by
  unfold rowAssignment
  cases h1 : parameters[col]? with
  | none => simp
  | some name =>
    cases h2 : (columns col)[row]? with
    | none => simp
    | some value =>
      simp only [Option.some.injEq]
      constructor
      · intro h; subst h; exact ⟨rfl, rfl⟩
      · intro h; exact Prod.ext h.1 h.2

/-- The keys of the map of row `row` are the names of the parameter columns
that reach row `row`. -/
theorem rowMap_at_ne_none (parameters : List String) (columns : Nat → List ℚ)
    (row : Nat) (name : String) :
    (assignAll [] ((List.range' 1 (parameters.length - 1)).filterMap
        (rowAssignment parameters columns row))).at name ≠ none ↔
      ∃ k : Nat, 1 ≤ k ∧ parameters[k]? = some name ∧ row < (columns k).length := by
  rw [assignAll_mem]
  simp only [ValueMap.at, ne_eq, not_true_eq_false, false_or, List.mem_filterMap,
    List.mem_range'_1]
  constructor
  · rintro ⟨entry, ⟨col, hcol, hassign⟩, hname⟩
    rw [rowAssignment_eq_some] at hassign
    refine ⟨col, hcol.1, by rw [← hname]; exact hassign.1, ?_⟩
    exact (List.getElem?_eq_some.mp hassign.2).1
  · rintro ⟨k, hk, hname, hrow⟩
    have hkn : k < parameters.length := (List.getElem?_eq_some.mp hname).1
    refine ⟨(name, (columns k)[row]), ⟨k, ⟨hk, by omega⟩, ?_⟩, rfl⟩
    rw [rowAssignment_eq_some]
    exact ⟨hname, List.getElem?_eq_getElem hrow⟩

/-- The value of a name that heads a single parameter column is the entry of
that column at row `row`. -/
theorem rowMap_at_eq (parameters : List String) (columns : Nat → List ℚ)
    (row : Nat) (name : String) (k : Nat) (hk : 1 ≤ k) (hname : parameters[k]? = some name)
    (huniq : ∀ k' : Nat, 1 ≤ k' → parameters[k']? = some name → k' = k) :
    (assignAll [] ((List.range' 1 (parameters.length - 1)).filterMap
        (rowAssignment parameters columns row))).at name = (columns k)[row]? := by
  have hkn : k < parameters.length := (List.getElem?_eq_some.mp hname).1
  cases hv : (columns k)[row]? with
  | none =>
    by_contra hne
    obtain ⟨k', hk', hname', hrow⟩ := (rowMap_at_ne_none parameters columns row name).mp hne
    have := huniq k' hk' hname'
    subst this
    rw [List.getElem?_eq_getElem hrow] at hv
    simp at hv
  | some value =>
    apply assignAll_hit
    · rw [List.mem_filterMap]
      refine ⟨k, by rw [List.mem_range'_1]; omega, ?_⟩
      rw [rowAssignment_eq_some]
      exact ⟨hname, hv⟩
    · intro entry hentry hen
      rw [List.mem_filterMap] at hentry
      obtain ⟨col, hcol, hassign⟩ := hentry
      rw [rowAssignment_eq_some] at hassign
      rw [List.mem_range'_1] at hcol
      have := huniq col hcol.1 (by rw [← hen]; exact hassign.1)
      subst this
      rw [hv] at hassign
      simpa using hassign.2.symm

theorem rowMap_sorted (parameters : List String) (columns : Nat → List ℚ) (row : Nat) :
    (assignAll [] ((List.range' 1 (parameters.length - 1)).filterMap
        (rowAssignment parameters columns row))).keys.Sorted (· < ·) :=
  assignAll_sorted _ [] (by simp [ValueMap.keys])

/-- The table `readCSV` builds from a text with a non-empty header line: one
point per numeric cell of column 0, holding that cell as X and the map built by
the assignments of its row from the compacted columns; the call throws exactly
when that table is empty. -/
theorem readCSV_spec (stod : String → Option ℚ) (text header : String)
    (dataLines : List String) (m_data : List DataPoint)
    (hlines : getlineAll '\n' text = header :: dataLines) (hheader : header ≠ "") :
    ∃ points,
      readCSV stod (some text) m_data =
        (if points = [] then .threw .noData [] else .returned points) ∧
      points.length = (columnCells stod 0 dataLines).length ∧
      ∀ (r : Nat) (point : DataPoint), points[r]? = some point →
        (columnCells stod 0 dataLines)[r]? = some point.x ∧
        point.values = assignAll []
          ((List.range' 1 ((getlineAll ',' header).length - 1)).filterMap
            (rowAssignment (getlineAll ',' header)
              (fun k => columnCells stod k dataLines) r)) := by
  have hn : 0 < (getlineAll ',' header).length := by
    rw [List.length_pos]
    intro h
    exact hheader ((getlineAll_eq_nil ',' header).mp h)
  obtain ⟨cd, cnt, hread, hcdlen, hcnt, hidx⟩ := readLines_spec stod
    (getlineAll ',' header).length hn dataLines
    ((getlineAll ',' header).map (fun _ => [])) 0 (by simp) (by
      intro column0 h0
      rw [List.getElem?_map] at h0
      cases hh : (getlineAll ',' header)[0]? with
      | none => rw [hh] at h0; simp at h0
      | some a => rw [hh] at h0; simp at h0; rw [h0]; rfl)
  have hcol : ∀ col : Nat, col < (getlineAll ',' header).length →
      cd[col]? = some (columnCells stod col dataLines) := by
    intro col hc
    rw [hidx col hc, List.getElem?_map, List.getElem?_eq_getElem hc]
    simp
  have hcnt' : cnt = (columnCells stod 0 dataLines).length := hcnt _ (hcol 0 hn)
  obtain ⟨points, hpoints, hrel⟩ := buildRows_spec (getlineAll ',' header) cd
    (fun k => columnCells stod k dataLines) hcol hn (List.range cnt) (by
      intro row hrow
      rw [List.mem_range] at hrow
      show row < (columnCells stod 0 dataLines).length
      omega)
  have hlen : points.length = cnt := by
    have := hrel.length_eq
    simpa using this.symm
  refine ⟨points, ?_, by omega, ?_⟩
  · simp only [readCSV, hlines, hread, hpoints]
    split_ifs with he
    · rw [he]
    · rfl
  · intro r point hr
    obtain ⟨hrlt, hget⟩ := List.getElem?_eq_some.mp hr
    have hrr : r < (List.range cnt).length := by simp; omega
    have := (List.forall₂_iff_get.mp hrel).2 r hrr hrlt
    simp only [List.get_eq_getElem, List.getElem_range] at this
    rw [hget] at this
    exact this

theorem tail_nodup_index_unique {names : List String} (h : names.tail.Nodup)
    {k k' : Nat} {name : String} (hk : 1 ≤ k) (hk' : 1 ≤ k')
    (hname : names[k]? = some name) (hname' : names[k']? = some name) : k' = k := by
  have h1 : names.tail[k - 1]? = some name := by
    rw [List.getElem?_tail]
    have : k - 1 + 1 = k := by omega
    rw [this]; exact hname
  have h2 : names.tail[k' - 1]? = some name := by
    rw [List.getElem?_tail]
    have : k' - 1 + 1 = k' := by omega
    rw [this]; exact hname'
  obtain ⟨hl1, e1⟩ := List.getElem?_eq_some.mp h1
  obtain ⟨hl2, e2⟩ := List.getElem?_eq_some.mp h2
  have := (List.Nodup.getElem_inj_iff h).mp (e2.trans e1.symm)
  omega

/-- The points of the table `readCSV` builds, described through the compacted
columns: X values, key order, key sets and values. -/
theorem readCSV_points (stod : String → Option ℚ) (text header : String)
    (dataLines : List String) (m_data : List DataPoint)
    (hlines : getlineAll '\n' text = header :: dataLines) (hheader : header ≠ "") :
    ∃ points,
      readCSV stod (some text) m_data =
        (if points = [] then .threw .noData [] else .returned points) ∧
      points.length = (columnCells stod 0 dataLines).length ∧
      ∀ (r : Nat) (point : DataPoint), points[r]? = some point →
        (columnCells stod 0 dataLines)[r]? = some point.x ∧
        point.values.keys.Sorted (· < ·) ∧
        (∀ name : String, name ∈ point.values.keys ↔
          ∃ k : Nat, 1 ≤ k ∧ (getlineAll ',' header)[k]? = some name ∧
            r < (columnCells stod k dataLines).length) ∧
        (∀ (name : String) (k : Nat), 1 ≤ k → (getlineAll ',' header)[k]? = some name →
          (∀ k' : Nat, 1 ≤ k' → (getlineAll ',' header)[k']? = some name → k' = k) →
          point.values.at name = (columnCells stod k dataLines)[r]?) := by
  obtain ⟨points, hread, hlen, hidx⟩ := readCSV_spec stod text header dataLines m_data hlines
    hheader
  refine ⟨points, hread, hlen, ?_⟩
  intro r point hr
  obtain ⟨hx, hvalues⟩ := hidx r point hr
  refine ⟨hx, ?_, ?_, ?_⟩
  · rw [hvalues]
    exact rowMap_sorted _ _ _
  · intro name
    rw [ValueMap.mem_keys_iff, hvalues]
    exact rowMap_at_ne_none _ _ _ _
  · intro name k hk hname huniq
    rw [hvalues]
    exact rowMap_at_eq _ _ _ _ k hk hname huniq

/-- A call of `readCSV` that returns has read a non-empty header line. -/
theorem readCSV_returned_header {stod : String → Option ℚ} {text : String}
    {m_data0 m_data : List DataPoint}
    (h : readCSV stod (some text) m_data0 = .returned m_data) :
    ∃ header dataLines, getlineAll '\n' text = header :: dataLines ∧ header ≠ "" := by
  cases hl : getlineAll '\n' text with
  | nil => simp [readCSV, hl] at h
  | cons header dataLines =>
    refine ⟨header, dataLines, rfl, ?_⟩
    intro hempty
    have hp : getlineAll ',' header = [] := (getlineAll_eq_nil ',' header).mpr hempty
    cases dataLines with
    | nil => simp [readCSV, hl, hp, readLines, buildRows] at h
    | cons line rest => simp [readCSV, hl, hp, readLines_no_column] at h

/-- The call on a text with a non-empty header line throws the no-data
exception exactly when column 0 has no numeric cell, and otherwise returns
with one row per numeric cell of column 0. -/
theorem readCSV_row_count (stod : String → Option ℚ) (text header : String)
    (dataLines : List String) (m_data0 : List DataPoint)
    (hlines : getlineAll '\n' text = header :: dataLines) (hheader : header ≠ "") :
    (readCSV stod (some text) m_data0 = .threw .noData [] ↔
        ∀ line ∈ dataLines, numericCell stod line 0 = none) ∧
      ((∃ line ∈ dataLines, numericCell stod line 0 ≠ none) →
        ∃ m_data, readCSV stod (some text) m_data0 = .returned m_data ∧
          getDataSize m_data =
            dataLines.countP (fun line => (numericCell stod line 0).isSome)) := by
  obtain ⟨points, hread, hlen, _⟩ := readCSV_spec stod text header dataLines m_data0 hlines
    hheader
  have hnil : points = [] ↔ ∀ line ∈ dataLines, numericCell stod line 0 = none := by
    rw [← List.length_eq_zero, hlen, List.length_eq_zero, columnCells,
      List.filterMap_eq_nil_iff]
  constructor
  · rw [hread, ← hnil]
    by_cases hp : points = [] <;> simp [hp]
  · rintro ⟨line, hline, hnum⟩
    have hp : points ≠ [] := fun hp => hnum (hnil.mp hp line hline)
    refine ⟨points, by rw [hread]; simp [hp], ?_⟩
    rw [getDataSize, hlen, columnCells, List.length_filterMap_eq_countP]

/-- On a text whose header line is empty and that has a data line, the call
reads `columnData[0]` of an empty vector at line 45, whatever the data lines
hold. -/
theorem readCSV_empty_header (stod : String → Option ℚ) (text line : String)
    (rest : List String) (m_data0 : List DataPoint)
    (hlines : getlineAll '\n' text = "" :: line :: rest) :
    readCSV stod (some text) m_data0 = .undefined := by
  have h : getlineAll ',' "" = [] := by decide
  simp [readCSV, hlines, h, readLines_no_column]

/-! ## Claims on `compareParameterDeltas` -/

theorem closestPoint_threw_iff (m_data : List DataPoint)
    (hsorted : m_data.Pairwise (fun a b => a.x ≤ b.x)) (xPoint : ℚ) :
    closestPoint m_data xPoint = .threw .beyondRange ↔ ∀ point ∈ m_data, point.x < xPoint := by
  obtain ⟨i, hle, hc, hlo, hhi⟩ := closestPoint_sorted m_data xPoint hsorted
  rw [hc]
  by_cases hi : i = m_data.length
  · simp only [hi, if_true, true_iff]
    intro point hp
    obtain ⟨j, hj, rfl⟩ := List.mem_iff_getElem.mp hp
    exact hlo j hj (by omega)
  · simp only [hi, if_false]
    constructor
    · intro h; simp at h
    · intro h
      have hlt : i < m_data.length := by omega
      exact absurd (h _ (List.getElem_mem hlt)) (not_lt.mpr (hhi i hlt (le_refl _)))

theorem closestPoint_least (m_data : List DataPoint)
    (hsorted : m_data.Pairwise (fun a b => a.x ≤ b.x)) (xPoint : ℚ)
    (hex : ∃ point ∈ m_data, xPoint ≤ point.x) :
    ∃ (i : Nat) (point : DataPoint), closestPoint m_data xPoint = .returned i ∧
      m_data[i]? = some point ∧ xPoint ≤ point.x ∧
      ∀ (j : Nat) (q : DataPoint), m_data[j]? = some q → xPoint ≤ q.x → i ≤ j := by
  obtain ⟨i, hle, hc, hlo, hhi⟩ := closestPoint_sorted m_data xPoint hsorted
  have hi : i ≠ m_data.length := by
    intro hi
    obtain ⟨point, hp, hx⟩ := hex
    obtain ⟨j, hj, rfl⟩ := List.mem_iff_getElem.mp hp
    exact absurd (hlo j hj (by omega)) (not_lt.mpr hx)
  have hlt : i < m_data.length := by omega
  refine ⟨i, m_data[i], ?_, List.getElem?_eq_getElem hlt, hhi i hlt (le_refl _), ?_⟩
  · rw [hc]; simp [hi]
  · intro j q hj hq
    obtain ⟨hjl, rfl⟩ := List.getElem?_eq_some.mp hj
    by_contra hcon
    exact absurd (hlo j hjl (by omega)) (not_lt.mpr hq)

/-- C4. On a non-empty table sorted ascending by x, the lookup of
`compareParameterDeltas` fails with the out-of-range error exactly when `xPoint`
is greater than every row's x; otherwise it selects the least index `i` with
`rows[i].x >= xPoint`, and that is the row whose values the method reports. A
query not above the first x selects row 0, and on x = [0, 1, 2, 3] the query
1.5 selects the row with x = 2. -/
theorem C4_lookup_is_lower_bound (m_data : List DataPoint) (hne : m_data ≠ [])
    (hsorted : m_data.Pairwise (fun a b => a.x ≤ b.x)) (xPoint : ℚ) :
    (closestPoint m_data xPoint = .threw .beyondRange ↔
        ∀ point ∈ m_data, point.x < xPoint) ∧
      ((∃ point ∈ m_data, xPoint ≤ point.x) →
        ∃ (i : Nat) (point : DataPoint), closestPoint m_data xPoint = .returned i ∧
          m_data[i]? = some point ∧ xPoint ≤ point.x ∧
          ∀ (j : Nat) (q : DataPoint), m_data[j]? = some q → xPoint ≤ q.x → i ≤ j) ∧
      (∀ (param1 param2 : String) (r : DeltaComparison),
        compareParameterDeltas m_data xPoint param1 param2 = .returned r →
          closestPoint m_data xPoint = .returned r.closest ∧
          ∃ point, m_data[r.closest]? = some point ∧
            point.values.at param1 = some r.value1 ∧
            point.values.at param2 = some r.value2) ∧
      (∀ (param1 param2 : String),
        (∀ point ∈ m_data, (∃ v1, point.values.at param1 = some v1) ∧
          ∃ v2, point.values.at param2 = some v2) →
        (compareParameterDeltas m_data xPoint param1 param2 = .threw .beyondRange ↔
          ∀ point ∈ m_data, point.x < xPoint)) ∧
      (∀ first : DataPoint, m_data[0]? = some first → xPoint ≤ first.x →
        closestPoint m_data xPoint = .returned 0) ∧
      (∀ v0 v1 v2 v3 : ValueMap,
        closestPoint [⟨0, v0⟩, ⟨1, v1⟩, ⟨2, v2⟩, ⟨3, v3⟩] (3 / 2) = .returned 2) := by
  refine ⟨closestPoint_threw_iff m_data hsorted xPoint,
    closestPoint_least m_data hsorted xPoint, ?_, ?_, ?_, ?_⟩
  · intro param1 param2 r hr
    obtain ⟨_, _, hc, _, _, point, hp, h1, h2, _⟩ := compareParameterDeltas_fields hr
    exact ⟨hc, point, hp, h1, h2⟩
  · intro param1 param2 htotal
    rw [← closestPoint_threw_iff m_data hsorted xPoint]
    rcases compareParameterDeltas_of_total xPoint hne htotal with ⟨hc, hcmp⟩ | ⟨r, hr⟩
    · simp [hc, hcmp]
    · have hc := (compareParameterDeltas_fields hr).2.2.1
      simp [hc, hr]
  · intro first hfirst hx
    obtain ⟨i, point, hc, hp, _, hmin⟩ :=
      closestPoint_least m_data hsorted xPoint ⟨first, List.mem_iff_getElem?.mpr ⟨0, hfirst⟩, hx⟩
    have := hmin 0 first hfirst hx
    have hi : i = 0 := by omega
    rw [hc, hi]
  · intro v0 v1 v2 v3
    have hs : List.Pairwise (fun a b : DataPoint => a.x ≤ b.x)
        [⟨0, v0⟩, ⟨1, v1⟩, ⟨2, v2⟩, ⟨3, v3⟩] := by
      simp
      norm_num
    obtain ⟨i, point, hc, hp, hx, hmin⟩ := closestPoint_least _ hs (3 / 2)
      ⟨⟨2, v2⟩, by simp, by norm_num⟩
    have h2 := hmin 2 ⟨2, v2⟩ (by simp) (by norm_num)
    rw [hc]
    have hi : i = 2 := by
      rcases i with _ | _ | _ | i
      · simp at hp; subst hp; norm_num at hx
      · simp at hp; subst hp; norm_num at hx
      · rfl
      · omega
    rw [hi]

theorem C4_lookup_is_lower_bound_witness :
    closestPoint [⟨0, [("a", 1)]⟩, ⟨1, [("a", 2)]⟩, ⟨2, [("a", 4)]⟩, ⟨3, [("a", 8)]⟩] (-1)
      = .returned 0 :=
  (C4_lookup_is_lower_bound
    [⟨0, [("a", 1)]⟩, ⟨1, [("a", 2)]⟩, ⟨2, [("a", 4)]⟩, ⟨3, [("a", 8)]⟩]
    (by simp) (by with_unfolding_all decide) (-1)).2.2.2.2.1 ⟨0, [("a", 1)]⟩ (by simp)
    (by norm_num)

/-- C5. On a non-empty table: when every row holds `param1` and `param2`, the
delta series of `compareParameterDeltas` has one entry per row, in row order,
entry `i` being `rows[i].values[param2] - rows[i].values[param1]`, and the call
either returns with that series or fails in the lookup; when some row lacks one
of the two, the call fails with the missing-parameter error. Rows `{p1:1,p2:4}`,
`{p1:2,p2:2}` give `[3, 0]`. -/
theorem C5_delta_series (m_data : List DataPoint) (hne : m_data ≠ [])
    (param1 param2 : String) (xPoint : ℚ) :
    ((∀ point ∈ m_data, (∃ v1, point.values.at param1 = some v1) ∧
        ∃ v2, point.values.at param2 = some v2) →
      ∃ lines, deltaLoop param1 param2 m_data = .returned lines ∧
        (lines.map DeltaLine.delta).length = m_data.length ∧
        (∀ (i : Nat) (point : DataPoint), m_data[i]? = some point →
          ∃ v1 v2, point.values.at param1 = some v1 ∧ point.values.at param2 = some v2 ∧
            (lines.map DeltaLine.delta)[i]? = some (v2 - v1)) ∧
        (compareParameterDeltas m_data xPoint param1 param2 = .threw .beyondRange ∨
          ∃ r, compareParameterDeltas m_data xPoint param1 param2 = .returned r ∧
            r.deltas = lines.map DeltaLine.delta)) ∧
      ((∃ point ∈ m_data, point.values.at param1 = none ∨ point.values.at param2 = none) →
        deltaLoop param1 param2 m_data = .threw .missingParameter ∧
        compareParameterDeltas m_data xPoint param1 param2 = .threw .missingParameter) ∧
      (∀ x0 x1 : ℚ, ∃ lines,
        deltaLoop "p1" "p2" [⟨x0, [("p1", 1), ("p2", 4)]⟩, ⟨x1, [("p1", 2), ("p2", 2)]⟩]
          = .returned lines ∧ lines.map DeltaLine.delta = [3, 0]) := by
  refine ⟨?_, ?_, ?_⟩
  · intro htotal
    obtain ⟨lines, hl⟩ := deltaLoop_total htotal
    obtain ⟨hlen, hidx⟩ := deltaLoop_index hl
    refine ⟨lines, hl, by simp [hlen], ?_, ?_⟩
    · intro i point hp
      obtain ⟨v1, v2, h1, h2, hline⟩ := hidx i point hp
      exact ⟨v1, v2, h1, h2, by simp [List.getElem?_map, hline]⟩
    · rcases compareParameterDeltas_of_total xPoint hne htotal with ⟨_, hcmp⟩ | ⟨r, hr⟩
      · exact Or.inl hcmp
      · refine Or.inr ⟨r, hr, ?_⟩
        obtain ⟨hd, hdel, _⟩ := compareParameterDeltas_fields hr
        rw [hl] at hd
        simp only [Result.returned.injEq] at hd
        rw [hdel, hd]
  · intro hmiss
    have hl := deltaLoop_missing hmiss
    exact ⟨hl, by simp [compareParameterDeltas, hne, hl]⟩
  · intro x0 x1
    refine ⟨[⟨x0, 1, 4, 4 - 1⟩, ⟨x1, 2, 2, 2 - 2⟩], ?_, ?_⟩
    · simp [deltaLoop, ValueMap.at]
    · simp; norm_num

theorem C5_delta_series_witness :
    compareParameterDeltas [⟨0, [("p1", 1)]⟩] 0 "p1" "p2" = .threw .missingParameter :=
  ((C5_delta_series [⟨0, [("p1", 1)]⟩] (by simp) "p1" "p2" 0).2.1
    ⟨⟨0, [("p1", 1)]⟩, by simp, Or.inr (by simp [ValueMap.at])⟩).2

/-- C8, as the code has it: the y range of a non-empty delta series whose
entries all equal `c` is the single point `ymin = ymax = c`, and in general
`ymin < ymax` holds exactly when the series has two different entries. -/
theorem C8_constant_series_range_collapses (deltas : List ℚ) (hne : deltas ≠ []) :
    (∀ c : ℚ, (∀ d ∈ deltas, d = c) → deltaYRange deltas = some (c, c)) ∧
      (∀ ymin ymax : ℚ, deltaYRange deltas = some (ymin, ymax) →
        (ymin < ymax ↔ ∃ a ∈ deltas, ∃ b ∈ deltas, a ≠ b)) ∧
      (∀ (m_data : List DataPoint) (xPoint : ℚ) (param1 param2 : String)
        (r : DeltaComparison) (c : ℚ),
        compareParameterDeltas m_data xPoint param1 param2 = .returned r →
        (∀ d ∈ r.deltas, d = c) → r.ymin = c ∧ r.ymax = c) := by
  have hconst : ∀ (ds : List ℚ), ds ≠ [] → ∀ c : ℚ, (∀ d ∈ ds, d = c) →
      deltaYRange ds = some (c, c) := by
    intro ds hds c hc
    obtain ⟨d, hd⟩ := List.exists_mem_of_ne_nil ds hds
    have hdc := hc d hd
    subst hdc
    have := deltaYRange_eq hd (fun e he => le_of_eq (hc e he).symm) hd
      (fun e he => le_of_eq (hc e he))
    simpa using this
  refine ⟨hconst deltas hne, ?_, ?_⟩
  · intro ymin ymax hy
    obtain ⟨lo, hi, hmm⟩ := minmaxElement_of_ne_nil hne
    obtain ⟨hlo, hhi, hall⟩ := minmaxElement_spec hmm
    simp only [deltaYRange, hmm, Option.some.injEq, Prod.mk.injEq] at hy
    obtain ⟨rfl, rfl⟩ := hy
    have hle : lo ≤ hi := (hall lo hlo).2
    constructor
    · intro hlt
      refine ⟨lo, hlo, hi, hhi, ?_⟩
      intro heq
      subst heq
      simp at hlt
    · rintro ⟨a, ha, b, hb, hab⟩
      have hlt : lo < hi := by
        rcases lt_or_eq_of_le hle with h | h
        · exact h
        · exfalso
          apply hab
          have h1 := hall a ha
          have h2 := hall b hb
          rw [← h] at h1 h2
          exact (le_antisymm h1.2 h1.1).trans (le_antisymm h2.1 h2.2)
      linarith
  · intro m_data xPoint param1 param2 r c hr hc
    obtain ⟨_, _, _, hy, hne', _⟩ := compareParameterDeltas_fields hr
    have hrne : r.deltas ≠ [] := by
      intro hnil
      rw [hnil] at hy
      simp [deltaYRange, minmaxElement] at hy
    have := hconst r.deltas hrne c hc
    rw [hy] at this
    simpa using this

theorem C8_constant_series_range_collapses_witness :
    deltaYRange [5, 5] = some (5, 5) :=
  (C8_constant_series_range_collapses [5, 5] (by simp)).1 5 (by simp)

/-- C8 as stated fails: on the one-row table `{x:0, p1:1, p2:6}` the delta
series is `[5]` and the range written to the script is `[5:5]`, of zero
width. -/
theorem C8_counterexample :
    ∃ r, compareParameterDeltas [⟨0, [("p1", 1), ("p2", 6)]⟩] 0 "p1" "p2" = .returned r ∧
      r.deltas = [5] ∧ r.ymin = 5 ∧ r.ymax = 5 ∧ ¬ r.ymin < r.ymax := by
  refine ⟨⟨[⟨0, 1, 6, 5⟩], [5], 0, 1, 6, 5, 5, 5⟩, ?_, rfl, rfl, rfl, lt_irrefl _⟩
  with_unfolding_all decide

/-- C9. For a non-empty delta series with minimum `m` and maximum `M`, the
display range of `compareParameterDeltas` is `ymin = m - 0.1*(M - m)` and
`ymax = M + 0.1*(M - m)`; it contains every entry of the series, and for the
series `[3, 0]` it is `[-0.3, 3.3]`. -/
theorem C9_padded_range (deltas : List ℚ) (m M : ℚ)
    (hm : m ∈ deltas) (hm' : ∀ d ∈ deltas, m ≤ d)
    (hM : M ∈ deltas) (hM' : ∀ d ∈ deltas, d ≤ M) :
    deltaYRange deltas = some (m - (1 / 10) * (M - m), M + (1 / 10) * (M - m)) ∧
      (∀ d ∈ deltas, m - (1 / 10) * (M - m) ≤ d ∧ d ≤ M + (1 / 10) * (M - m)) ∧
      (∀ (m_data : List DataPoint) (xPoint : ℚ) (param1 param2 : String)
        (r : DeltaComparison),
        compareParameterDeltas m_data xPoint param1 param2 = .returned r →
        r.deltas = deltas →
          r.ymin = m - (1 / 10) * (M - m) ∧ r.ymax = M + (1 / 10) * (M - m)) ∧
      deltaYRange [3, 0] = some (-3 / 10, 33 / 10) := by
  have hy : deltaYRange deltas = some (m - (1 / 10) * (M - m), M + (1 / 10) * (M - m)) := by
    rw [deltaYRange_eq hm hm' hM hM', mul_comm]
  have hmM : m ≤ M := hm' M hM
  refine ⟨hy, ?_, ?_, ?_⟩
  · intro d hd
    have h1 := hm' d hd
    have h2 := hM' d hd
    constructor <;> linarith
  · intro m_data xPoint param1 param2 r hr hd
    obtain ⟨_, _, _, hy', _⟩ := compareParameterDeltas_fields hr
    rw [hd, hy] at hy'
    simp only [Option.some.injEq, Prod.mk.injEq] at hy'
    exact ⟨hy'.1.symm, hy'.2.symm⟩
  · have := @deltaYRange_eq [3, 0] 0 3 (by simp)
      (by intro d hd; simp at hd; rcases hd with rfl | rfl <;> norm_num) (by simp)
      (by intro d hd; simp at hd; rcases hd with rfl | rfl <;> norm_num)
    rw [this]
    norm_num

theorem C9_padded_range_witness :
    deltaYRange [3, 0, 1] = some (0 - (1 / 10) * (3 - 0), 3 + (1 / 10) * (3 - 0)) :=
  (C9_padded_range [3, 0, 1] 0 3 (by simp)
    (by intro d hd; simp at hd; rcases hd with rfl | rfl | rfl <;> norm_num) (by simp)
    (by intro d hd; simp at hd; rcases hd with rfl | rfl | rfl <;> norm_num)).1

/-! ## Claim on `generateGraphs` -/

/-- C6, as the code has it: on a non-empty table in which every row holds a
value for each of the `n` parameters of row 0, `generateGraphs` forms exactly
`ceil(n/40)` batches, and batch `i` covers exactly the positions
`[40*i, min(40*(i+1), n))` of the ordered parameter list; every batch is
non-empty, all but the last have 40 parameters, the batches concatenated give
the parameter list, and `n = 85` gives sizes `[40, 40, 5]`. -/
theorem C6_batches_partition_parameters (m_data : List DataPoint) (hne : m_data ≠ [])
    (hall : ∀ point ∈ m_data, ∀ name ∈ getParameterNames m_data,
      ∃ v, point.values.at name = some v) :
    ∃ batches, generateGraphs m_data = .returned batches ∧
      batches.length = ((getParameterNames m_data).length + 39) / 40 ∧
      (getParameterNames m_data).length ≤ 40 * batches.length ∧
      40 * batches.length < (getParameterNames m_data).length + 40 ∧
      (∀ (i : Nat) (B : Batch), batches[i]? = some B →
        B.batch = i ∧ B.batchStart = 40 * i ∧
        B.batchEnd = min (40 * (i + 1)) (getParameterNames m_data).length ∧
        B.names = ((getParameterNames m_data).drop (40 * i)).take
          (min (40 * (i + 1)) (getParameterNames m_data).length - 40 * i) ∧
        B.names.length = B.batchEnd - B.batchStart ∧
        B.names ≠ [] ∧ (i + 1 < batches.length → B.names.length = 40) ∧
        B.dataFile.length = m_data.length) ∧
      (batches.map Batch.names).flatten = getParameterNames m_data ∧
      ((getParameterNames m_data).length = 85 →
        batches.map (fun B => B.names.length) = [40, 40, 5]) := by
  cases m_data with
  | nil => exact absurd rfl hne
  | cons point0 rest =>
    simp only [getParameterNames] at hall ⊢
    generalize hvp : point0.values.keys = validParams at hall ⊢
    obtain ⟨batches, hb, hlen, hidx⟩ := batchLoop_spec (point0 :: rest) validParams hall
      (List.range ((validParams.length + BATCH_SIZE - 1) / BATCH_SIZE))
    have hB : BATCH_SIZE = 40 := rfl
    rw [hB] at hb hlen hidx
    simp only [List.length_range] at hlen
    have hlen' : batches.length = (validParams.length + 39) / 40 := by
      rw [hlen]
      have : validParams.length + 40 - 1 = validParams.length + 39 := by omega
      rw [this]
    have hbatch : ∀ (i : Nat) (B : Batch), batches[i]? = some B →
        B.batch = i ∧ B.batchStart = 40 * i ∧
        B.batchEnd = min (40 * (i + 1)) validParams.length ∧
        B.names = batchSlice validParams i := by
      intro i B hi
      have hil : i < batches.length := (List.getElem?_eq_some.mp hi).1
      obtain ⟨B', hB', h1, h2, h3, h4, _⟩ := hidx i i (List.getElem?_range (by omega))
      rw [hi] at hB'
      simp only [Option.some.injEq] at hB'
      subst hB'
      refine ⟨h1, by omega, ?_, h4⟩
      rw [h3]
      congr 1
      omega
    have hslice : ∀ i : Nat, batchSlice validParams i =
        (validParams.drop (40 * i)).take (min (40 * (i + 1)) validParams.length - 40 * i) := by
      intro i
      simp only [batchSlice, hB]
      have e1 : i * 40 = 40 * i := by omega
      have e2 : 40 * i + 40 = 40 * (i + 1) := by omega
      rw [e1, e2]
    have hslen : ∀ i : Nat, (batchSlice validParams i).length =
        min (40 * (i + 1)) validParams.length - 40 * i := by
      intro i
      rw [hslice, List.length_take, List.length_drop]
      omega
    have hnames : batches.map Batch.names =
        (List.range ((validParams.length + 39) / 40)).map (batchSlice validParams) := by
      apply List.ext_getElem?
      intro k
      rw [List.getElem?_map, List.getElem?_map]
      by_cases hk : k < batches.length
      · rw [List.getElem?_eq_getElem hk, List.getElem?_range (by omega)]
        simp only [Option.map_some']
        rw [(hbatch k _ (List.getElem?_eq_getElem hk)).2.2.2]
      · rw [List.getElem?_eq_none (by omega), List.getElem?_eq_none (by simp; omega)]
        rfl
    refine ⟨batches, ?_, hlen', by omega, by omega, ?_, ?_, ?_⟩
    · simp only [generateGraphs, hvp, hB]
      exact hb
    · intro i B hi
      have hil : i < batches.length := (List.getElem?_eq_some.mp hi).1
      obtain ⟨h1, h2, h3, h4⟩ := hbatch i B hi
      have hl := hslen i
      rw [← h4] at hl
      refine ⟨h1, h2, h3, by rw [h4, hslice], by omega, ?_, ?_,
        ?_⟩
      · intro hnil
        rw [hnil] at hl
        simp only [List.length_nil] at hl
        omega
      · intro hlast
        omega
      · obtain ⟨B', hB', _, _, _, _, hdf⟩ := hidx i i (List.getElem?_range (by omega))
        rw [hi] at hB'
        simp only [Option.some.injEq] at hB'
        subst hB'
        exact hdf
    · rw [hnames, flatten_batchSlice, List.take_of_length_le]
      rw [hB]
      omega
    · intro h85
      have hmap : batches.map (fun B => B.names.length) =
          (batches.map Batch.names).map List.length := by
        simp
      rw [hmap, hnames, h85]
      have hr : List.range ((85 + 39) / 40) = [0, 1, 2] := by decide
      rw [hr]
      simp only [List.map_cons, List.map_nil, hslen, h85]
      rfl

theorem C6_batches_partition_parameters_witness :
    ∃ batches,
      generateGraphs [⟨0, [("a", 1), ("b", 2)]⟩, ⟨1, [("a", 1), ("b", 5)]⟩] = .returned batches ∧
      batches.length = 1 :=
  (C6_batches_partition_parameters [⟨0, [("a", 1), ("b", 2)]⟩, ⟨1, [("a", 1), ("b", 5)]⟩]
    (by simp) (by simp [getParameterNames, ValueMap.keys, ValueMap.at])).imp
    (fun _ h => ⟨h.1, h.2.1⟩)

/-- C6 as stated fails: the table that `readCSV` builds from the text
`x,a / 0,1 / 1,foo` has one parameter, so one batch is due, but its second row
has no value for it and `generateGraphs` ends in the exception of `at`; on the
empty table it ends in the no-data exception. -/
theorem C6_counterexample :
    readCSV stodDigits (some "x,a\n0,1\n1,foo\n") [] =
        .returned [⟨0, [("a", 1)]⟩, ⟨1, []⟩] ∧
      getParameterNames [⟨0, [("a", 1)]⟩, ⟨1, []⟩] = ["a"] ∧
      generateGraphs [⟨0, [("a", 1)]⟩, ⟨1, []⟩] = .threw .missingParameter ∧
      generateGraphs [] = .threw .noData := by
  refine ⟨?_, ?_, ?_, ?_⟩ <;> with_unfolding_all decide

/-! ## Claims on `readCSV` and `getParameterNames` -/

/-- C10. `readCSV` stores values column by column and compacts each column:
for a text with a non-empty header whose parameter names are pairwise
distinct, with `c_k` the numeric cells of column `k` in line order, the table
left in `m_data` has exactly `|c_0|` rows (the call throws the no-data
exception when that is 0 and returns otherwise), row `r` has `x = c_0[r]`, and
for each parameter column `k >= 1` row `r` contains column `k`'s name iff
`r < |c_k|`, its value then being `c_k[r]`. So each row's key set is a subset of
the previous row's, and the keys of row 0, which `getParameterNames` returns,
include every key of every row. -/
theorem C10_columns_compacted_independently (stod : String → Option ℚ)
    (text header : String) (dataLines : List String) (m_data0 : List DataPoint)
    (hlines : getlineAll '\n' text = header :: dataLines) (hheader : header ≠ "")
    (hdistinct : (getlineAll ',' header).tail.Nodup) :
    ∃ m_data,
      readCSV stod (some text) m_data0 =
        (if m_data = [] then .threw .noData [] else .returned m_data) ∧
      m_data.length = (columnCells stod 0 dataLines).length ∧
      (∀ (r : Nat) (point : DataPoint), m_data[r]? = some point →
        (columnCells stod 0 dataLines)[r]? = some point.x ∧
        ∀ (k : Nat) (name : String), 1 ≤ k → (getlineAll ',' header)[k]? = some name →
          (name ∈ point.values.keys ↔ r < (columnCells stod k dataLines).length) ∧
          point.values.at name = (columnCells stod k dataLines)[r]?) ∧
      (∀ (r : Nat) (p q : DataPoint), m_data[r]? = some p → m_data[r + 1]? = some q →
        ∀ name ∈ q.values.keys, name ∈ p.values.keys) ∧
      (∀ (r : Nat) (p : DataPoint), m_data[r]? = some p →
        ∀ name ∈ p.values.keys, name ∈ getParameterNames m_data) := by
  obtain ⟨points, hread, hlen, hidx⟩ := readCSV_points stod text header dataLines m_data0
    hlines hheader
  refine ⟨points, hread, hlen, ?_, ?_, ?_⟩
  · intro r point hr
    obtain ⟨hx, _, hkeys, hat⟩ := hidx r point hr
    refine ⟨hx, ?_⟩
    intro k name hk hname
    have huniq : ∀ k' : Nat, 1 ≤ k' → (getlineAll ',' header)[k']? = some name → k' = k :=
      fun k' hk' hname' => tail_nodup_index_unique hdistinct hk hk' hname hname'
    refine ⟨?_, hat name k hk hname huniq⟩
    rw [hkeys]
    constructor
    · rintro ⟨k', hk', hname', hrow⟩
      rw [← huniq k' hk' hname']
      exact hrow
    · intro hrow
      exact ⟨k, hk, hname, hrow⟩
  · intro r p q hp hq name hname
    obtain ⟨k, hk, hkn, hrow⟩ := ((hidx (r + 1) q hq).2.2.1 name).mp hname
    exact ((hidx r p hp).2.2.1 name).mpr ⟨k, hk, hkn, by omega⟩
  · intro r p hp name hname
    obtain ⟨k, hk, hkn, hrow⟩ := ((hidx r p hp).2.2.1 name).mp hname
    cases hpoints : points with
    | nil => rw [hpoints] at hp; simp at hp
    | cons p0 rest =>
      have h0 : points[0]? = some p0 := by rw [hpoints]; simp
      simp only [getParameterNames]
      exact ((hidx 0 p0 h0).2.2.1 name).mpr ⟨k, hk, hkn, by omega⟩

theorem C10_columns_compacted_independently_witness :
    ∃ m_data,
      readCSV stodDigits (some "x,a,b\n1,foo,5\n2,7,8\n") [] =
        (if m_data = [] then .threw .noData [] else .returned m_data) ∧
      m_data.length = (columnCells stodDigits 0 ["1,foo,5", "2,7,8"]).length :=
  (C10_columns_compacted_independently stodDigits "x,a,b\n1,foo,5\n2,7,8\n" "x,a,b"
    ["1,foo,5", "2,7,8"] [] (by decide) (by decide) (by decide)).imp
    (fun _ h => ⟨h.1, h.2.1⟩)

/-- C1, as the code has it: after a call of `readCSV` that returns,
`getParameterNames` lists, in ascending string order and each once, the names
of the header columns after the first that hold at least one numeric cell. It
is the list of the header's tokens after the first when those are in strictly
ascending order and each of their columns holds a numeric cell. -/
theorem C1_parameter_names_are_row0_keys (stod : String → Option ℚ) (text : String)
    (m_data0 m_data : List DataPoint)
    (hread : readCSV stod (some text) m_data0 = .returned m_data) :
    ∃ header dataLines, getlineAll '\n' text = header :: dataLines ∧
      (getParameterNames m_data).Sorted (· < ·) ∧
      (∀ name : String, name ∈ getParameterNames m_data ↔
        ∃ k : Nat, 1 ≤ k ∧ (getlineAll ',' header)[k]? = some name ∧
          columnCells stod k dataLines ≠ []) ∧
      ((getlineAll ',' header).tail.Sorted (· < ·) →
        (∀ k : Nat, 1 ≤ k → k < (getlineAll ',' header).length →
          columnCells stod k dataLines ≠ []) →
        getParameterNames m_data = (getlineAll ',' header).tail) := by
  obtain ⟨header, dataLines, hlines, hheader⟩ := readCSV_returned_header hread
  obtain ⟨points, hread', hlen, hidx⟩ := readCSV_points stod text header dataLines m_data0
    hlines hheader
  have hpm : points = m_data ∧ points ≠ [] := by
    rw [hread'] at hread
    by_cases hp : points = []
    · simp [hp] at hread
    · simp only [hp, if_false, Outcome.returned.injEq] at hread
      exact ⟨hread, hp⟩
  obtain ⟨rfl, hne⟩ := hpm
  cases hpoints : points with
  | nil => exact absurd hpoints hne
  | cons p0 rest =>
    have h0 : points[0]? = some p0 := by rw [hpoints]; simp
    obtain ⟨_, hsorted, hkeys, _⟩ := hidx 0 p0 h0
    have hmem : ∀ name : String, name ∈ getParameterNames (p0 :: rest) ↔
        ∃ k : Nat, 1 ≤ k ∧ (getlineAll ',' header)[k]? = some name ∧
          columnCells stod k dataLines ≠ [] := by
      intro name
      simp only [getParameterNames]
      rw [hkeys]
      constructor
      · rintro ⟨k, hk, hname, hrow⟩
        exact ⟨k, hk, hname, List.length_pos.mp hrow⟩
      · rintro ⟨k, hk, hname, hrow⟩
        exact ⟨k, hk, hname, List.length_pos.mpr hrow⟩
    have hsorted : (getParameterNames (p0 :: rest)).Sorted (· < ·) := hsorted
    refine ⟨header, dataLines, hlines, hsorted, hmem, ?_⟩
    intro htail hcols
    apply List.eq_of_perm_of_sorted (r := (· ≤ ·))
    · rw [List.perm_ext_iff_of_nodup (List.Sorted.nodup hsorted) (List.Sorted.nodup htail)]
      intro name
      rw [hmem]
      constructor
      · rintro ⟨k, hk, hname, _⟩
        have : (getlineAll ',' header).tail[k - 1]? = some name := by
          rw [List.getElem?_tail]
          have : k - 1 + 1 = k := by omega
          rw [this]; exact hname
        exact List.mem_iff_getElem?.mpr ⟨k - 1, this⟩
      · intro hname
        obtain ⟨j, hj⟩ := List.mem_iff_getElem?.mp hname
        rw [List.getElem?_tail] at hj
        exact ⟨j + 1, by omega, hj, hcols (j + 1) (by omega)
          (List.getElem?_eq_some.mp hj).1⟩
    · exact List.Sorted.le_of_lt hsorted
    · exact List.Sorted.le_of_lt htail

theorem C1_parameter_names_are_row0_keys_witness :
    ∃ header dataLines, getlineAll '\n' "x,b,a\n1,2,3\n" = header :: dataLines ∧
      (getParameterNames [⟨1, [("a", 3), ("b", 2)]⟩]).Sorted (· < ·) :=
  (C1_parameter_names_are_row0_keys stodDigits "x,b,a\n1,2,3\n" []
    [⟨1, [("a", 3), ("b", 2)]⟩] (by with_unfolding_all decide)).imp
    (fun _ h => h.imp (fun _ h' => ⟨h'.1, h'.2.1⟩))

/-- C1 as stated fails: from the text `x,b,a / 1,2,3` the call returns, the
header's tokens after the first are `b, a`, and `getParameterNames` gives
`a, b`; from `x,a,b / 1,foo,2` it gives `b` alone. -/
theorem C1_counterexample :
    readCSV stodDigits (some "x,b,a\n1,2,3\n") [] = .returned [⟨1, [("a", 3), ("b", 2)]⟩] ∧
      (getlineAll ',' "x,b,a").tail = ["b", "a"] ∧
      getParameterNames [⟨1, [("a", 3), ("b", 2)]⟩] = ["a", "b"] ∧
      getParameterNames [⟨1, [("a", 3), ("b", 2)]⟩] ≠ (getlineAll ',' "x,b,a").tail ∧
      readCSV stodDigits (some "x,a,b\n1,foo,2\n") [] = .returned [⟨1, [("b", 2)]⟩] ∧
      getParameterNames [⟨1, [("b", 2)]⟩] ≠ (getlineAll ',' "x,a,b").tail := by
  refine ⟨?_, ?_, ?_, ?_, ?_, ?_⟩ <;> with_unfolding_all decide

theorem columnCells_append (stod : String → Option ℚ) (k : Nat) (pre post : List String)
    (line : String) :
    columnCells stod k (pre ++ line :: post) =
      columnCells stod k pre ++ ((numericCell stod line k).toList ++ columnCells stod k post) := by
  simp only [columnCells, List.filterMap_append, List.filterMap_cons]
  cases numericCell stod line k <;> simp

theorem columnCells_remove (stod : String → Option ℚ) (k : Nat) (pre post : List String)
    (line : String) (h : numericCell stod line k = none) :
    columnCells stod k (pre ++ line :: post) = columnCells stod k (pre ++ post) := by
  rw [columnCells_append, h]
  simp [columnCells, List.filterMap_append]

/-- C2, as the code has it: in a text with a non-empty header line whose
parameter names are pairwise distinct, take a data line with a numeric X cell,
`r` earlier data lines having a numeric X cell. The call returns and its row
`r` has the line's X. For every parameter column `k` with exactly `r` numeric
cells on the earlier data lines: if the line's cell in column `k` is
non-numeric or empty and no later line has a numeric cell in column `k`, row
`r` has no entry for column `k`'s name; if the cell is numeric, row `r`'s entry
for the name is the cell's value. -/
theorem C2_aligned_cell_omitted_or_kept (stod : String → Option ℚ)
    (text header : String) (pre : List String) (line : String) (post : List String)
    (m_data0 : List DataPoint) (x : ℚ)
    (hlines : getlineAll '\n' text = header :: (pre ++ line :: post))
    (hheader : header ≠ "")
    (hdistinct : (getlineAll ',' header).tail.Nodup)
    (hx : numericCell stod line 0 = some x) :
    ∃ m_data point, readCSV stod (some text) m_data0 = .returned m_data ∧
      m_data[(columnCells stod 0 pre).length]? = some point ∧ point.x = x ∧
      ∀ (k : Nat) (name : String), 1 ≤ k → (getlineAll ',' header)[k]? = some name →
        (columnCells stod k pre).length = (columnCells stod 0 pre).length →
        (numericCell stod line k = none → columnCells stod k post = [] →
          name ∉ point.values.keys ∧ point.values.at name = none) ∧
        (∀ v : ℚ, numericCell stod line k = some v → point.values.at name = some v) := by
  obtain ⟨points, hread, hlen, hidx⟩ := readCSV_points stod text header
    (pre ++ line :: post) m_data0 hlines hheader
  have hck : ∀ k : Nat, (columnCells stod k pre).length = (columnCells stod 0 pre).length →
      (columnCells stod k (pre ++ line :: post))[(columnCells stod 0 pre).length]? =
        ((numericCell stod line k).toList ++ columnCells stod k post)[0]? := by
    intro k halign
    rw [columnCells_append, ← halign, List.getElem?_append_right (le_refl _), Nat.sub_self]
  have hc0 : (columnCells stod 0 (pre ++ line :: post))[(columnCells stod 0 pre).length]? =
      some x := by
    rw [columnCells_append, hx, List.getElem?_append_right (le_refl _)]
    simp
  have hrlt : (columnCells stod 0 pre).length < points.length := by
    rw [hlen]
    exact (List.getElem?_eq_some.mp hc0).1
  have hne : points ≠ [] := by
    intro h
    rw [h] at hrlt
    simp at hrlt
  obtain ⟨point, hpoint⟩ : ∃ point, points[(columnCells stod 0 pre).length]? = some point :=
    ⟨_, List.getElem?_eq_getElem hrlt⟩
  obtain ⟨hx', _, hkeys, hat⟩ := hidx _ _ hpoint
  refine ⟨points, point, by rw [hread]; simp [hne], hpoint, ?_, ?_⟩
  · rw [hc0] at hx'
    simpa using hx'.symm
  · intro k name hk hname halign
    have huniq : ∀ k' : Nat, 1 ≤ k' → (getlineAll ',' header)[k']? = some name → k' = k :=
      fun k' hk' hname' => tail_nodup_index_unique hdistinct hk hk' hname hname'
    have hval := hat name k hk hname huniq
    rw [hck k halign] at hval
    refine ⟨?_, ?_⟩
    · intro hcell hpost
      rw [hcell, hpost] at hval
      have hnone : point.values.at name = none := by
        rw [hval]; rfl
      refine ⟨?_, hnone⟩
      rw [ValueMap.mem_keys_iff, hnone]
      simp
    · intro v hcell
      rw [hcell] at hval
      rw [hval]
      simp

theorem C2_aligned_cell_omitted_or_kept_witness :
    ∃ m_data point, readCSV stodDigits (some "x,a,b\n1,2,3\n4,foo,6\n") [] = .returned m_data ∧
      m_data[(columnCells stodDigits 0 ["1,2,3"]).length]? = some point ∧ point.x = 4 ∧
      ∀ (k : Nat) (name : String), 1 ≤ k → (getlineAll ',' "x,a,b")[k]? = some name →
        (columnCells stodDigits k ["1,2,3"]).length =
          (columnCells stodDigits 0 ["1,2,3"]).length →
        (numericCell stodDigits "4,foo,6" k = none → columnCells stodDigits k [] = [] →
          name ∉ point.values.keys ∧ point.values.at name = none) ∧
        (∀ v : ℚ, numericCell stodDigits "4,foo,6" k = some v →
          point.values.at name = some v) :=
  C2_aligned_cell_omitted_or_kept stodDigits "x,a,b\n1,2,3\n4,foo,6\n" "x,a,b" ["1,2,3"]
    "4,foo,6" [] [] 4 (by decide) (by decide) (by decide) (by with_unfolding_all decide)

/-- C2 as stated fails: in the text `x,a,b / 1,foo,5 / 2,7,8` the first data
line has a numeric X and a non-numeric cell in column `a`, yet its row holds
`a = 7`, taken from the next line; and the second data line has the numeric
cell 7 in column `a`, yet its row has no entry for `a`. -/
theorem C2_counterexample :
    readCSV stodDigits (some "x,a,b\n1,foo,5\n2,7,8\n") [] =
        .returned [⟨1, [("a", 7), ("b", 5)]⟩, ⟨2, [("b", 8)]⟩] ∧
      getlineAll '\n' "x,a,b\n1,foo,5\n2,7,8\n" = ["x,a,b", "1,foo,5", "2,7,8"] ∧
      numericCell stodDigits "1,foo,5" 0 = some 1 ∧
      numericCell stodDigits "1,foo,5" 1 = none ∧
      ValueMap.at [("a", 7), ("b", 5)] "a" = some 7 ∧
      numericCell stodDigits "2,7,8" 0 = some 2 ∧
      numericCell stodDigits "2,7,8" 1 = some 7 ∧
      ValueMap.at [("b", 8)] "a" = none := by
  refine ⟨?_, ?_, ?_, ?_, ?_, ?_, ?_, ?_⟩ <;> with_unfolding_all decide

/-- C3, as the code has it: in a text with a non-empty header line, a data
line whose X cell is non-numeric or empty adds no row: the table left in
`m_data` has the same row count and the same X values as for the text without
that line, one row less than with a line that has a numeric X in its place, and
the call ends the same way; when none of the line's cells within the header
width is numeric, the two calls give the same result. -/
theorem C3_line_without_x_adds_no_row (stod : String → Option ℚ)
    (text text' header : String) (pre : List String) (line : String) (post : List String)
    (m_data0 : List DataPoint)
    (hlines : getlineAll '\n' text = header :: (pre ++ line :: post))
    (hlines' : getlineAll '\n' text' = header :: (pre ++ post))
    (hheader : header ≠ "")
    (hx : numericCell stod line 0 = none) :
    (∃ m_data m_data',
        readCSV stod (some text) m_data0 =
          (if m_data = [] then .threw .noData [] else .returned m_data) ∧
        readCSV stod (some text') m_data0 =
          (if m_data' = [] then .threw .noData [] else .returned m_data') ∧
        getDataSize m_data = getDataSize m_data' ∧
        m_data.map DataPoint.x = m_data'.map DataPoint.x ∧
        (∀ (text2 line2 : String),
          getlineAll '\n' text2 = header :: (pre ++ line2 :: post) →
          numericCell stod line2 0 ≠ none →
          ∃ m_data2, readCSV stod (some text2) m_data0 = .returned m_data2 ∧
            getDataSize m_data2 = getDataSize m_data + 1)) ∧
      ((∀ k : Nat, k < (getlineAll ',' header).length → numericCell stod line k = none) →
        readCSV stod (some text) m_data0 = readCSV stod (some text') m_data0) := by
  obtain ⟨points, hread, hlen, hidx⟩ := readCSV_spec stod text header
    (pre ++ line :: post) m_data0 hlines hheader
  obtain ⟨points', hread', hlen', hidx'⟩ := readCSV_spec stod text' header
    (pre ++ post) m_data0 hlines' hheader
  have hc0 := columnCells_remove stod 0 pre post line hx
  have hsame : points.length = points'.length := by rw [hlen, hlen', hc0]
  refine ⟨⟨points, points', hread, hread', hsame, ?_, ?_⟩, ?_⟩
  · apply List.ext_getElem?
    intro r
    rw [List.getElem?_map, List.getElem?_map]
    by_cases hr : r < points.length
    · have hr' : r < points'.length := by omega
      have h1 := (hidx r _ (List.getElem?_eq_getElem hr)).1
      have h2 := (hidx' r _ (List.getElem?_eq_getElem hr')).1
      rw [hc0, h2] at h1
      rw [List.getElem?_eq_getElem hr, List.getElem?_eq_getElem hr']
      simp only [Option.map_some', Option.some.injEq]
      simpa using h1.symm
    · rw [List.getElem?_eq_none (by omega), List.getElem?_eq_none (by omega)]
  · intro text2 line2 hlines2 hx2
    obtain ⟨points2, hread2, hlen2, _⟩ := readCSV_spec stod text2 header
      (pre ++ line2 :: post) m_data0 hlines2 hheader
    have hcount : points2.length = points.length + 1 := by
      rw [hlen2, hlen, columnCells_append, columnCells_append, hx]
      cases h2 : numericCell stod line2 0 with
      | none => exact absurd h2 hx2
      | some v => simp; omega
    have hne2 : points2 ≠ [] := by
      intro h
      rw [h] at hcount
      simp at hcount
    exact ⟨points2, by rw [hread2]; simp [hne2], hcount⟩
  · intro hall
    have hcols : ∀ k : Nat, k < (getlineAll ',' header).length →
        columnCells stod k (pre ++ line :: post) = columnCells stod k (pre ++ post) :=
      fun k hk => columnCells_remove stod k pre post line (hall k hk)
    have hpoints : points = points' := by
      apply List.ext_getElem?
      intro r
      by_cases hr : r < points.length
      · have hr' : r < points'.length := by omega
        obtain ⟨h1, hv1⟩ := hidx r _ (List.getElem?_eq_getElem hr)
        obtain ⟨h2, hv2⟩ := hidx' r _ (List.getElem?_eq_getElem hr')
        rw [List.getElem?_eq_getElem hr, List.getElem?_eq_getElem hr']
        rw [hc0, h2] at h1
        have hxeq : (points[r]).x = (points'[r]).x := by simpa using h1.symm
        have hveq : (points[r]).values = (points'[r]).values := by
          rw [hv1, hv2]
          congr 1
          apply List.filterMap_congr
          intro col hcol
          rw [List.mem_range'_1] at hcol
          simp only [rowAssignment]
          rw [hcols col (by omega)]
        congr 1
        cases hp : points[r]
        cases hp' : points'[r]
        rw [hp, hp'] at hxeq hveq
        simp only at hxeq hveq
        rw [hxeq, hveq]
      · rw [List.getElem?_eq_none (by omega), List.getElem?_eq_none (by omega)]
    rw [hread, hread', hpoints]

theorem C3_line_without_x_adds_no_row_witness :
    readCSV stodDigits (some "x,a\n1,10\nfoo,bar\n3,30\n") [] =
      readCSV stodDigits (some "x,a\n1,10\n3,30\n") [] :=
  (C3_line_without_x_adds_no_row stodDigits "x,a\n1,10\nfoo,bar\n3,30\n" "x,a\n1,10\n3,30\n"
    "x,a" ["1,10"] "foo,bar" ["3,30"] [] (by decide) (by decide) (by decide)
    (by with_unfolding_all decide)).2 (by
      intro k hk
      have hk2 : k < 2 := hk
      rcases k with _ | _ | k
      · with_unfolding_all decide
      · with_unfolding_all decide
      · omega)

/-- C3 as stated fails: the data line `foo,20` has a non-numeric X cell, but
its cell 20 enters column `a`, so the last row holds `a = 20` with the line and
`a = 30` without it. -/
theorem C3_counterexample :
    getlineAll '\n' "x,a\n1,10\nfoo,20\n3,30\n" = ["x,a", "1,10", "foo,20", "3,30"] ∧
      getlineAll '\n' "x,a\n1,10\n3,30\n" = ["x,a", "1,10", "3,30"] ∧
      numericCell stodDigits "foo,20" 0 = none ∧
      readCSV stodDigits (some "x,a\n1,10\nfoo,20\n3,30\n") [] =
        .returned [⟨1, [("a", 10)]⟩, ⟨3, [("a", 20)]⟩] ∧
      readCSV stodDigits (some "x,a\n1,10\n3,30\n") [] =
        .returned [⟨1, [("a", 10)]⟩, ⟨3, [("a", 30)]⟩] ∧
      readCSV stodDigits (some "x,a\n1,10\nfoo,20\n3,30\n") [] ≠
        readCSV stodDigits (some "x,a\n1,10\n3,30\n") [] := by
  refine ⟨?_, ?_, ?_, ?_, ?_, ?_⟩ <;> with_unfolding_all decide

/-- C7 at the failing inputs: a text made of an empty header line and one data
line. No column exists, so line 45 reads `columnData[0]` of an empty vector.
With the empty data line no data line has a numeric first cell, and the call
does not throw the empty-dataset error; with the data line `1` the first cell
is numeric, and the call does not return one row. -/
theorem C7_empty_header_out_of_range (stod : String → Option ℚ)
    (m_data0 : List DataPoint) :
    (getlineAll '\n' "\n\n" = ["", ""] ∧
        numericCell stod "" 0 = none ∧
        readCSV stod (some "\n\n") m_data0 = .undefined) ∧
      (getlineAll '\n' "\n1\n" = ["", "1"] ∧
        numericCell stodDigits "1" 0 = some 1 ∧
        readCSV stod (some "\n1\n") m_data0 = .undefined) := by
  have h0 : getlineAll '\n' "\n\n" = ["", ""] := by decide
  have h1 : getlineAll '\n' "\n1\n" = ["", "1"] := by decide
  have h2 : getlineAll ',' "" = [] := by decide
  refine ⟨⟨h0, ?_, ?_⟩, ⟨h1, by with_unfolding_all decide, ?_⟩⟩
  · simp [numericCell, h2]
  · simp [readCSV, h0, h2, readLines_no_column]
  · simp [readCSV, h1, h2, readLines_no_column]
end DataPostProcessor
